import Mathlib

/-
Verification of the metadata diff-and-sync engine of
`src/CollectChefMetadata.py` (class `Metadata`).

The Python code is embedded shallowly:

* Python dicts with string keys become association lists (`List (String × α)`)
  whose keys are pairwise distinct; `lookupKey`, `hasKey`, `eraseKey` and
  `dictInsert` model `d[k]`, `k in d`, `d.pop(k)` and `d[k] = v`.
* A node's attribute tree becomes the inductive `AttrValue`
  (string / integer scalars, lists, string-keyed mappings).
* Fallible Python code (uncaught exceptions) returns `Except`.
* The network and the pickle file are passed explicitly: the remote
  dimension lookup is a function `String → LookupResp`, the pickle file is
  an `Option Snapshot` (`none` = the file does not exist), and one cycle of
  `Metadata.run` produces a list of observable `Event`s.
-/

/-- Python dict lookup `d[key]` (as an `Option`) for string-keyed dicts
modelled as association lists; the first binding wins (an actual dict never
has duplicate keys, see `keysNodup`). -/
def lookupKey {α : Type} : List (String × α) → String → Option α
  | [], _ => none
  | (k, v) :: rest, key => if k = key then some v else lookupKey rest key

/-- Python membership test `key in d`. -/
def hasKey {α : Type} (d : List (String × α)) (key : String) : Bool :=
  (lookupKey d key).isSome

/-- Python `d.pop(key)` (the removal part): removes the first binding of
`key`; on a dict there is at most one. -/
def eraseKey {α : Type} : List (String × α) → String → List (String × α)
  | [], _ => []
  | (k, v) :: rest, key => if k = key then rest else (k, v) :: eraseKey rest key

/-- Python assignment `d[key] = v`: updates the binding in place when the
key is present, otherwise appends it (insertion order is preserved). -/
def dictInsert {α : Type} (d : List (String × α)) (key : String) (v : α) :
    List (String × α) :=
  if hasKey d key then d.map (fun kv => if kv.1 = key then (key, v) else kv)
  else d ++ [(key, v)]

/-- The keys of `d` are pairwise distinct — true of every Python dict. -/
abbrev keysNodup {α : Type} (d : List (String × α)) : Prop :=
  (d.map Prod.fst).Nodup

/-- A collected metadata record: a Python dict from attribute names to
string values (`nodeInformation` in the source). -/
abbrev Record := List (String × String)

/-- The pickled snapshot: a Python dict from node identity
(`chefUniqueId`) to the record stored for that identity. -/
abbrev Snapshot := List (String × Record)

/-- A Python value inside a chef node's attribute tree: a string scalar, an
integer scalar, a list, or a string-keyed mapping. -/
inductive AttrValue : Type where
  | str : String → AttrValue
  | int : Int → AttrValue
  | list : List AttrValue → AttrValue
  | dict : List (String × AttrValue) → AttrValue

/-- The single-quote character, written via its code point. -/
def sqChar : Char := Char.ofNat 39

/-- Escapes backslashes (and, when `escapeQuote` is set, single quotes) the
way Python's `repr` of a string does for printable characters. -/
def escapeChars (escapeQuote : Bool) : List Char → List Char
  | [] => []
  | c :: cs =>
    if c = '\\' then '\\' :: '\\' :: escapeChars escapeQuote cs
    else if escapeQuote = true ∧ c = sqChar then '\\' :: sqChar :: escapeChars escapeQuote cs
    else c :: escapeChars escapeQuote cs

/-- Python `repr` of a string: single-quoted, except that a string holding
a single quote but no double quote is double-quoted.  Faithful for
printable characters, which is all the data handled here contains. -/
def reprQuoted (s : String) : String :=
  if s.data.contains sqChar ∧ ¬ s.data.contains '"' then
    String.mk ('"' :: escapeChars false s.data ++ ['"'])
  else
    String.mk (sqChar :: escapeChars true s.data ++ [sqChar])

/-- Python `sep.join(items)` for string items. -/
def joinWith (sep : String) : List String → String
  | [] => ""
  | [x] => x
  | x :: y :: xs => x ++ sep ++ joinWith sep (y :: xs)

mutual

/-- Python `repr` of an `AttrValue` (which is also `str` for lists and
dicts): elements of a list and keys/values of a dict are shown `repr`-ed,
joined with a comma and wrapped in the matching brackets. -/
def pyRepr : AttrValue → String
  | .str s => reprQuoted s
  | .int n => toString n
  | .list xs => "[" ++ joinWith ", " (pyReprList xs) ++ "]"
  | .dict es => "\x7b" ++ joinWith ", " (pyReprEntries es) ++ "\x7d"

/-- Helper of `pyRepr` for the elements of a list. -/
def pyReprList : List AttrValue → List String
  | [] => []
  | x :: xs => pyRepr x :: pyReprList xs

/-- Helper of `pyRepr` for the entries of a dict. -/
def pyReprEntries : List (String × AttrValue) → List String
  | [] => []
  | kv :: es => (reprQuoted kv.1 ++ ": " ++ pyRepr kv.2) :: pyReprEntries es

end

/-- Python `str` of an `AttrValue`: the string itself for a string, and
`repr` for every other value. -/
def pyStr : AttrValue → String
  | .str s => s
  | v => pyRepr v

/-- Splits a character list at every occurrence of `c`, Python
`str.split(c)` semantics: `"".split(c) = [""]`, separators at either end
produce empty pieces. -/
def splitOnChar (c : Char) : List Char → List (List Char)
  | [] => [[]]
  | x :: xs =>
    let r := splitOnChar c xs
    if x = c then [] :: r
    else
      match r with
      | [] => [[x]]
      | g :: gs => (x :: g) :: gs

/-- Python `attribute.split('.')` from `Metadata.getAttributeValue`. -/
def splitTokens (s : String) : List String :=
  (splitOnChar '.' s.data).map String.mk

/-- One Python indexing step `value[token]` with a string token, as an
`Option`: only a mapping can be indexed; a missing key, or indexing a
scalar or a list with a string, fails (`KeyError`/`TypeError`, both caught
by the `try`/`except` in `Metadata.getAttributeValue`). -/
def indexStep (v : AttrValue) (token : String) : Option AttrValue :=
  match v with
  | .dict entries => lookupKey entries token
  | _ => none

/-- The token-by-token walk inside `Metadata.getAttributeValue`: `none` as
soon as one step fails. -/
def resolvePath : List String → AttrValue → Option AttrValue
  | [], v => some v
  | t :: ts, v =>
    match indexStep v t with
    | none => none
    | some v2 => resolvePath ts v2

/-- The uncaught Python exceptions the embedded code can raise. -/
inductive PyError : Type where
  | fileNotFound : PyError
  | keyError : PyError
  | typeError : PyError

deriving instance DecidableEq for PyError

deriving instance DecidableEq for Except

/-- Tests whether a value is a Python dict (`isinstance(x, dict)`). -/
def isDictVal : AttrValue → Bool
  | .dict _ => true
  | _ => false

/-- Tests whether a value is a Python string. -/
def isStrVal : AttrValue → Bool
  | .str _ => true
  | _ => false

/-- Projection of a string value (only used under an `isStrVal` guard). -/
def strVal : AttrValue → String
  | .str s => s
  | _ => ""

/-- Embeds `Metadata.getAttributeValue`: split the attribute on `'.'`, walk
the tree (any failing step is caught and yields `None`), then: a dict
result yields `None`; a list free of dicts is `'$'.join`-ed — which raises
an uncaught `TypeError` when some element is not a string; every other
result (including a list that does contain a dict) is returned as
`str(tempValue)`. -/
def getAttributeValue (attrib : String) (node_details : AttrValue) :
    Except PyError (Option String) :=
  match resolvePath (splitTokens attrib) node_details with
  | none => .ok none
  | some tempValue =>
    if isDictVal tempValue then .ok none
    else
      match tempValue with
      | .list xs =>
        if xs.any isDictVal then .ok (some (pyStr (.list xs)))
        else if xs.all isStrVal then .ok (some (joinWith "$" (xs.map strVal)))
        else .error .typeError
      | v => .ok (some (pyStr v))

/-- Python `s.replace('.', '_')` (single-character pattern, so a per
character substitution). -/
def replaceDotUnderscore (s : String) : String :=
  String.mk (s.data.map (fun c => if c = '.' then '_' else c))

/-- Python `s.startswith('chef_')`. -/
def startsWithChef (s : String) : Bool :=
  match s.data with
  | 'c' :: 'h' :: 'e' :: 'f' :: '_' :: _ => true
  | _ => false

/-- Embeds `Metadata.adjustAttributeName`: replace `'.'` by `'_'` and add
the `chef_` namespace unless the name already starts with it. -/
def adjustAttributeName (attrib : String) : String :=
  let a := replaceDotUnderscore attrib
  if startsWithChef a then a else "chef_" ++ a

/-- The loop body of `Metadata.getNodeInformation` over the configured
attribute list: resolve each attribute; a `None` — and, by Python
truthiness, an empty string — leaves the record unchanged, any other value
is stored under the adjusted name; an uncaught exception aborts. -/
def collectAttrs (node_details : AttrValue) :
    List String → Record → Except PyError Record
  | [], record => .ok record
  | attrib :: rest, record =>
    match getAttributeValue attrib node_details with
    | .error e => .error e
    | .ok none => collectAttrs node_details rest record
    | .ok (some s) =>
      if s = "" then collectAttrs node_details rest record
      else collectAttrs node_details rest (dictInsert record (adjustAttributeName attrib) s)

/-- Embeds `Metadata.getNodeInformation`: the record starts with the node
identity `organization + "_" + node_name` under `chefUniqueId` and the
node's environment under `chef_environment`, then each configured
attribute is resolved and, when truthy, stored under its adjusted name. -/
def getNodeInformation (organization node_name chef_environment : String)
    (node_details : AttrValue) (config : List String) : Except PyError Record :=
  collectAttrs node_details config
    [("chefUniqueId", organization ++ "_" ++ node_name),
     ("chef_environment", chef_environment)]

/-- Accepts the leading character of the name pattern `[a-zA-Z_]`
(`Char.isAlpha` is exactly ASCII `a-z`/`A-Z`). -/
def isNameStart (c : Char) : Bool :=
  c.isAlpha || c = '_'

/-- Accepts a continuation character of the name pattern `[a-zA-Z0-9_-]`. -/
def isNameRest (c : Char) : Bool :=
  c.isAlpha || c.isDigit || c = '_' || c = '-'

/-- Matcher for `[a-zA-Z0-9_-]*$` under Python `re` semantics: at each
position the star either consumes one class character and continues, or
stops and lets `$` succeed — and `$` succeeds at the end of the string or
just before one final newline (no class character can consume a newline). -/
def matchRest : List Char → Bool
  | [] => true
  | c :: cs => (isNameRest c && matchRest cs) || (decide (c = '\n') && cs.isEmpty)

/-- Embeds `Metadata.checkPropertyNameSyntax` (the Lean name is shortened):
the truth value of `re.compile('^[a-zA-Z_][a-zA-Z0-9_-]*$').match(s)`.  The
invalid-name logging is a side effect outside the embedding. -/
def checkPropertyName (s : String) : Bool :=
  match s.data with
  | [] => false
  | c :: cs => isNameStart c && matchRest cs

/-- Modelled from the claim's words (spec side, for comparison with
`checkPropertyName`): membership in the language of
`^[a-zA-Z_][a-zA-Z0-9_-]*$` read as a description of the whole string —
one leading letter or underscore followed only by letters, digits,
underscores and hyphens. -/
def matchesNamePattern (s : String) : Bool :=
  match s.data with
  | [] => false
  | c :: cs => isNameStart c && cs.all isNameRest

/-- Python `line.rstrip('\n')`: removes every trailing newline. -/
def rstripNl (s : String) : String :=
  String.mk ((s.data.reverse.dropWhile (fun c => c = '\n')).reverse)

/-- Python `line.startswith("#")`. -/
def startsWithHash (s : String) : Bool :=
  match s.data with
  | '#' :: _ => true
  | _ => false

/-- Embeds `Metadata.readConfig` over the list of lines returned by
`f.readlines()` (each line keeps its trailing newline): a line is kept when
it does not start with `#`, is not exactly `"\n"`, and its
newline-stripped, `'.'`-to-`'_'`-substituted form passes the name check;
kept lines are stored stripped of trailing newlines, in file order. -/
def readConfig : List String → List String
  | [] => []
  | line :: rest =>
    if ¬ startsWithHash line = true ∧ line ≠ "\n" then
      if checkPropertyName (replaceDotUnderscore (rstripNl line)) then
        rstripNl line :: readConfig rest
      else readConfig rest
    else readConfig rest

/-- Modelled from the claim's words (spec side, for comparison with
`readConfig`): a config line is kept when it is not blank, does not begin
with the comment marker `#`, and its `'.'`-to-`'_'` substituted form (after
removing trailing newlines) matches the naming pattern. -/
def claimKeepsLine (line : String) : Bool :=
  !startsWithHash line && decide (rstripNl line ≠ "")
    && matchesNamePattern (replaceDotUnderscore (rstripNl line))

/-- One iteration of the comparison loop in
`Metadata.checkForUpdatesInMetadata`: for a key/value pair of the previous
record, pop the key from the current record when the current record binds
it to the same value. -/
def popStep (cur : Record) (key pv : String) : Record :=
  match lookupKey cur key with
  | some cv => if cv = pv then eraseKey cur key else cur
  | none => cur

/-- The whole comparison loop of `Metadata.checkForUpdatesInMetadata`: runs
`popStep` for every entry of the previous record. -/
def popUnchanged : Record → Record → Record
  | cur, [] => cur
  | cur, kv :: rest => popUnchanged (popStep cur kv.1 kv.2) rest

/-- Embeds `Metadata.checkForUpdatesInMetadata` given the already-loaded
snapshot: read the identity out of the current record (`KeyError` when
absent), return the record unchanged when the identity is not a snapshot
key, otherwise drop the entries unchanged from the stored record and then
`pop('chefUniqueId')` — which raises `KeyError` when that key was already
dropped by the loop. -/
def checkForUpdatesInMetadata (current_data : Record) (savedMetadata : Snapshot) :
    Except PyError Record :=
  match lookupKey current_data "chefUniqueId" with
  | none => .error .keyError
  | some uid =>
    match lookupKey savedMetadata uid with
    | none => .ok current_data
    | some previous_data =>
      let popped := popUnchanged current_data previous_data
      if hasKey popped "chefUniqueId" then .ok (eraseKey popped "chefUniqueId")
      else .error .keyError

/-- Embeds `Metadata.checkForUpdatesInMetadata` including its
`open(self.PICKLE_FILE, 'rb')`: when the pickle file does not exist, `open`
raises `FileNotFoundError`, which nothing catches. -/
def checkForUpdatesWithFile (current_data : Record) (pickleFile : Option Snapshot) :
    Except PyError Record :=
  match pickleFile with
  | none => .error .fileNotFound
  | some savedMetadata => checkForUpdatesInMetadata current_data savedMetadata

/-- Modelled from the claim's words (spec side, for comparison with
`checkForUpdatesInMetadata`): the entries of the current record whose key
is absent from the previous record or whose value differs from it under
exact string equality. -/
def specDelta (current previous : Record) : Record :=
  current.filter (fun kv => decide (lookupKey previous kv.1 ≠ some kv.2))

/-- The remote dimension-lookup response used by
`Metadata.getSignalfxObjectId`: the HTTP status and the decoded
`resp.json()['rs']` list of object ids. -/
structure LookupResp : Type where
  status : Nat
  rs : List String

deriving instance DecidableEq for LookupResp

/-- How a cycle of `Metadata.run` aborts: `exitNow()` (`sys.exit(1)`) after
a non-200 lookup response, or an uncaught Python exception (CPython then
terminates the process with status 1 as well). -/
inductive RunAbort : Type where
  | httpLookupFailure : RunAbort
  | uncaughtException : PyError → RunAbort

deriving instance DecidableEq for RunAbort

/-- Process exit status of an aborted run: `sys.exit(1)` for the lookup
failure, and CPython's status 1 for an uncaught exception. -/
def abortExitCode : RunAbort → Nat
  | .httpLookupFailure => 1
  | .uncaughtException _ => 1

/-- Observable actions of one cycle, in order. -/
inductive Event : Type where
  | skipNotFound : String → Event
  | diffDone : String → Event
  | patch : String → String → Record → Event
  | noNewMetadata : String → Event
  | save : Snapshot → Event

deriving instance DecidableEq for Event

/-- The identity a per-node event concerns (`none` for the snapshot
write). -/
def eventUid : Event → Option String
  | .skipNotFound uid => some uid
  | .diffDone uid => some uid
  | .patch uid _ _ => some uid
  | .noNewMetadata uid => some uid
  | .save _ => none

/-- Tests for the snapshot-write event. -/
def isSaveEvent : Event → Bool
  | .save _ => true
  | _ => false

/-- Embeds `Metadata.getSignalfxObjectId`: any non-200 response aborts the
whole run (`exitNow`), otherwise the response is handed back. -/
def getSignalfxObjectId (env : String → LookupResp) (uid : String) :
    Except RunAbort LookupResp :=
  if (env uid).status ≠ 200 then .error .httpLookupFailure else .ok (env uid)

/-- Embeds `Metadata.sendMetadataToSignalfx` for one node: read the
identity (its absence would raise `KeyError` while building the query),
look the identity up remotely, return after logging when zero object ids
come back, otherwise diff against the pickle file (the `copy.deepcopy`
in the source makes the diff side-effect free on the record, which the
value semantics here models) and patch exactly when the delta is
non-empty. -/
def sendMetadataToSignalfx (env : String → LookupResp) (pickleFile : Option Snapshot)
    (nodeInformation : Record) : Except RunAbort (List Event) :=
  match lookupKey nodeInformation "chefUniqueId" with
  | none => .error (.uncaughtException .keyError)
  | some uid =>
    match getSignalfxObjectId env uid with
    | .error e => .error e
    | .ok resp =>
      match resp.rs with
      | [] => .ok [.skipNotFound uid]
      | objectId :: _ =>
        match checkForUpdatesWithFile nodeInformation pickleFile with
        | .error e => .error (.uncaughtException e)
        | .ok new_metadata =>
          if new_metadata.isEmpty then .ok [.diffDone uid, .noNewMetadata uid]
          else .ok [.diffDone uid, .patch uid objectId new_metadata]

/-- The per-node loop of `Metadata.run`: sync every collected record in
order; the first abort stops the whole run. -/
def syncNodes (env : String → LookupResp) (pickleFile : Option Snapshot) :
    List Record → Except RunAbort (List Event)
  | [] => .ok []
  | node :: rest =>
    match sendMetadataToSignalfx env pickleFile node with
    | .error e => .error e
    | .ok evs =>
      match syncNodes env pickleFile rest with
      | .error e => .error e
      | .ok more => .ok (evs ++ more)

/-- The loop of `Metadata.saveMetadata`: store every collected record under
its identity, with the identity popped out of the stored record. -/
def saveFold : List Record → Snapshot → Except RunAbort Snapshot
  | [], pickleData => .ok pickleData
  | node :: rest, pickleData =>
    match lookupKey node "chefUniqueId" with
    | none => .error (.uncaughtException .keyError)
    | some uid => saveFold rest (dictInsert pickleData uid (eraseKey node "chefUniqueId"))

/-- Embeds `Metadata.saveMetadata`: the freshly written pickle contents. -/
def saveMetadata (nodes_metadata : List Record) : Except RunAbort Snapshot :=
  saveFold nodes_metadata []

/-- Embeds one cycle of `Metadata.run` after collection: the collected
records are synced one by one against the pickle file as it existed at the
start of the cycle (the file is only rewritten at the very end), then
`saveMetadata` writes the snapshot exactly once. -/
def runCycle (env : String → LookupResp) (nodes_metadata : List Record)
    (pickleFile : Option Snapshot) : Except RunAbort (List Event × Snapshot) :=
  match syncNodes env pickleFile nodes_metadata with
  | .error e => .error e
  | .ok evs =>
    match saveMetadata nodes_metadata with
    | .error e => .error e
    | .ok snap => .ok (evs ++ [.save snap], snap)

/-- The identities of the collected records, in order. -/
def nodeIds (nodes : List Record) : List String :=
  nodes.filterMap (fun n => lookupKey n "chefUniqueId")

/-! Lemmas about the dict model. -/

theorem lookupKey_mem {α : Type} {d : List (String × α)} {k : String} {v : α}
    (h : lookupKey d k = some v) : (k, v) ∈ d := by
  induction d with
  | nil => simp [lookupKey] at h
  | cons kv rest ih =>
    obtain ⟨k0, v0⟩ := kv
    by_cases hk : k0 = k
    · subst hk
      simp [lookupKey] at h
      simp [h]
    · simp only [lookupKey, if_neg hk] at h
      exact List.mem_cons_of_mem _ (ih h)

theorem lookupKey_eq_none {α : Type} {d : List (String × α)} {k : String}
    (h : k ∉ d.map Prod.fst) : lookupKey d k = none := by
  induction d with
  | nil => rfl
  | cons kv rest ih =>
    obtain ⟨k0, v0⟩ := kv
    simp only [List.map_cons, List.mem_cons] at h
    push_neg at h
    have hk : k0 ≠ k := fun hh => h.1 hh.symm
    simp [lookupKey, hk, ih h.2]

theorem mem_keys_of_lookupKey {α : Type} {d : List (String × α)} {k : String} {v : α}
    (h : lookupKey d k = some v) : k ∈ d.map Prod.fst := by
  by_contra hmem
  rw [lookupKey_eq_none hmem] at h
  exact Option.noConfusion h

theorem lookupKey_of_mem_nodup {α : Type} {d : List (String × α)} {k : String} {v : α}
    (hd : keysNodup d) (h : (k, v) ∈ d) : lookupKey d k = some v := by
  induction d with
  | nil => simp at h
  | cons kv rest ih =>
    obtain ⟨k0, v0⟩ := kv
    rw [keysNodup, List.map_cons, List.nodup_cons] at hd
    rcases List.mem_cons.mp h with h0 | h1
    · rw [Prod.mk.injEq] at h0
      simp [lookupKey, h0.1, h0.2]
    · have hk : k0 ≠ k := by
        intro hh
        subst hh
        exact hd.1 (List.mem_map.mpr ⟨(k0, v), h1, rfl⟩)
      simp only [lookupKey, if_neg hk]
      exact ih hd.2 h1

theorem hasKey_of_mem {α : Type} {d : List (String × α)} {k : String} {v : α}
    (h : (k, v) ∈ d) : hasKey d k = true := by
  induction d with
  | nil => simp at h
  | cons kv rest ih =>
    obtain ⟨k0, v0⟩ := kv
    by_cases hk : k0 = k
    · simp [hasKey, lookupKey, hk]
    · rcases List.mem_cons.mp h with h0 | h1
      · rw [Prod.mk.injEq] at h0
        exact absurd h0.1.symm hk
      · simpa [hasKey, lookupKey, hk] using ih h1

theorem lookupKey_eraseKey_ne {α : Type} (d : List (String × α)) {k key : String}
    (h : k ≠ key) : lookupKey (eraseKey d key) k = lookupKey d k := by
  induction d with
  | nil => rfl
  | cons kv rest ih =>
    obtain ⟨k0, v0⟩ := kv
    by_cases hk : k0 = key
    · subst hk
      have hne : k0 ≠ k := fun hh => h hh.symm
      simp [eraseKey, lookupKey, hne]
    · simp [eraseKey, hk, lookupKey, ih]

theorem eraseKey_eq_filter {α : Type} {d : List (String × α)} (key : String)
    (hd : keysNodup d) :
    eraseKey d key = d.filter (fun kv => decide (kv.1 ≠ key)) := by
  induction d with
  | nil => rfl
  | cons kv rest ih =>
    obtain ⟨k0, v0⟩ := kv
    rw [keysNodup, List.map_cons, List.nodup_cons] at hd
    by_cases hk : k0 = key
    · subst hk
      have hrest : rest.filter (fun kv => decide (kv.1 ≠ k0)) = rest := by
        apply List.filter_eq_self.mpr
        intro kv hmem
        simp only [decide_eq_true_eq]
        intro heq
        refine hd.1 ?_
        rw [← heq]
        exact List.mem_map.mpr ⟨kv, hmem, rfl⟩
      simp only [decide_not] at hrest
      simp [eraseKey, List.filter_cons, hrest]
    · simp [eraseKey, hk, List.filter_cons, ih hd.2]

theorem keysNodup_filter {α : Type} {d : List (String × α)} (p : String × α → Bool)
    (hd : keysNodup d) : keysNodup (d.filter p) :=
  hd.sublist ((List.filter_sublist d).map Prod.fst)

theorem keysNodup_eraseKey {α : Type} {d : List (String × α)} (key : String)
    (hd : keysNodup d) : keysNodup (eraseKey d key) := by
  rw [eraseKey_eq_filter key hd]
  exact keysNodup_filter _ hd

theorem lookupKey_filter_ne {α : Type} (d : List (String × α)) (key k : String) :
    lookupKey (d.filter (fun kv => decide (kv.1 ≠ key))) k
      = if k = key then none else lookupKey d k := by
  induction d with
  | nil => simp [lookupKey]
  | cons kv rest ih =>
    obtain ⟨k0, v0⟩ := kv
    simp only [decide_not] at ih
    by_cases hk : k0 = key
    · subst hk
      by_cases hkk : k = k0
      · subst hkk
        simp [List.filter_cons, ih]
      · have hne : k0 ≠ k := fun hh => hkk hh.symm
        simp [List.filter_cons, lookupKey, ih, hkk, hne]
    · by_cases hk0 : k0 = k
      · subst hk0
        have hne : k0 ≠ key := hk
        simp [List.filter_cons, hk, lookupKey, hne]
      · simp [List.filter_cons, hk, lookupKey, hk0, ih]

theorem hasKey_eraseKey_self {α : Type} {d : List (String × α)} (key : String)
    (hd : keysNodup d) : hasKey (eraseKey d key) key = false := by
  rw [eraseKey_eq_filter key hd, hasKey, lookupKey_filter_ne, if_pos rfl]
  rfl

theorem lookupKey_map_update_ne {α : Type} (d : List (String × α)) (key : String) (v : α)
    {k : String} (h : k ≠ key) :
    lookupKey (d.map (fun kv => if kv.1 = key then (key, v) else kv)) k = lookupKey d k := by
  induction d with
  | nil => rfl
  | cons kv rest ih =>
    obtain ⟨k0, v0⟩ := kv
    rw [List.map_cons]
    dsimp only
    by_cases h0 : k0 = key
    · subst h0
      rw [if_pos rfl]
      have hne : k0 ≠ k := fun hh => h hh.symm
      simp only [lookupKey, if_neg hne]
      exact ih
    · rw [if_neg h0]
      simp only [lookupKey]
      by_cases hk0 : k0 = k
      · rw [if_pos hk0, if_pos hk0]
      · rw [if_neg hk0, if_neg hk0]
        exact ih

theorem lookupKey_map_update_self {α : Type} {d : List (String × α)} (key : String) (v : α)
    (h : hasKey d key = true) :
    lookupKey (d.map (fun kv => if kv.1 = key then (key, v) else kv)) key = some v := by
  induction d with
  | nil => simp [hasKey, lookupKey] at h
  | cons kv rest ih =>
    obtain ⟨k0, v0⟩ := kv
    rw [List.map_cons]
    dsimp only
    by_cases h0 : k0 = key
    · subst h0
      rw [if_pos rfl]
      simp [lookupKey]
    · rw [hasKey] at h
      simp only [lookupKey, if_neg h0] at h
      rw [if_neg h0]
      simp only [lookupKey, if_neg h0]
      exact ih h

theorem lookupKey_append_single_ne {α : Type} (d : List (String × α)) (key : String) (v : α)
    {k : String} (h : k ≠ key) :
    lookupKey (d ++ [(key, v)]) k = lookupKey d k := by
  induction d with
  | nil =>
    have hne : key ≠ k := fun hh => h hh.symm
    simp [lookupKey, hne]
  | cons kv rest ih =>
    obtain ⟨k0, v0⟩ := kv
    simp [lookupKey, ih]

theorem lookupKey_append_single_self {α : Type} (d : List (String × α)) (key : String) (v : α)
    (h : hasKey d key = false) :
    lookupKey (d ++ [(key, v)]) key = some v := by
  induction d with
  | nil => simp [lookupKey]
  | cons kv rest ih =>
    obtain ⟨k0, v0⟩ := kv
    rw [hasKey] at h
    by_cases h0 : k0 = key
    · simp [lookupKey, h0] at h
    · simp only [lookupKey, if_neg h0] at h
      simp [lookupKey, h0, ih h]

theorem lookupKey_dictInsert_self {α : Type} (d : List (String × α)) (key : String) (v : α) :
    lookupKey (dictInsert d key v) key = some v := by
  unfold dictInsert
  by_cases h : hasKey d key = true
  · rw [if_pos h]
    exact lookupKey_map_update_self key v h
  · rw [if_neg h]
    exact lookupKey_append_single_self d key v (Bool.not_eq_true _ ▸ h)

theorem lookupKey_dictInsert_ne {α : Type} (d : List (String × α)) {key k : String} (v : α)
    (h : k ≠ key) : lookupKey (dictInsert d key v) k = lookupKey d k := by
  unfold dictInsert
  by_cases hh : hasKey d key = true
  · rw [if_pos hh]
    exact lookupKey_map_update_ne d key v h
  · rw [if_neg hh]
    exact lookupKey_append_single_ne d key v h

theorem filter_key_eq_nil {α : Type} {d : List (String × α)} {key : String}
    (h : key ∉ d.map Prod.fst) :
    d.filter (fun kv => decide (kv.1 = key)) = [] := by
  induction d with
  | nil => rfl
  | cons kv rest ih =>
    obtain ⟨k0, v0⟩ := kv
    simp only [List.map_cons, List.mem_cons] at h
    push_neg at h
    have hk : k0 ≠ key := fun hh => h.1 hh.symm
    simp [List.filter_cons, hk, ih h.2]

theorem filter_key_eq_single {α : Type} {d : List (String × α)} {key : String} {v : α}
    (hd : keysNodup d) (h : lookupKey d key = some v) :
    d.filter (fun kv => decide (kv.1 = key)) = [(key, v)] := by
  induction d with
  | nil => simp [lookupKey] at h
  | cons kv rest ih =>
    obtain ⟨k0, v0⟩ := kv
    rw [keysNodup, List.map_cons, List.nodup_cons] at hd
    by_cases hk : k0 = key
    · subst hk
      have h0 : v0 = v := by simpa [lookupKey] using h
      subst h0
      simp [List.filter_cons, filter_key_eq_nil hd.1]
    · simp only [lookupKey, if_neg hk] at h
      simp [List.filter_cons, hk, ih hd.2 h]

/-! Lemmas about the diff computation. -/

theorem popUnchanged_cons (cur : Record) (k pv : String) (rest : Record) :
    popUnchanged cur ((k, pv) :: rest) = popUnchanged (popStep cur k pv) rest := rfl

theorem popStep_eq_filter {cur : Record} (k pv : String) (hcur : keysNodup cur) :
    popStep cur k pv
      = cur.filter (fun kv => !(decide (kv.1 = k) && decide (kv.2 = pv))) := by
  unfold popStep
  cases hl : lookupKey cur k with
  | none =>
    symm
    apply List.filter_eq_self.mpr
    intro kv hmem
    by_cases hk : kv.1 = k
    · exfalso
      have hhk := hasKey_of_mem (show (kv.1, kv.2) ∈ cur by simpa using hmem)
      rw [hasKey, hk, hl] at hhk
      simp at hhk
    · simp [hk]
  | some cv =>
    dsimp only
    by_cases hcv : cv = pv
    · subst hcv
      rw [if_pos rfl, eraseKey_eq_filter k hcur]
      apply List.filter_congr
      intro kv hmem
      by_cases hk : kv.1 = k
      · have h2 : kv.2 = cv := by
          have hlk := lookupKey_of_mem_nodup hcur (show (kv.1, kv.2) ∈ cur by simpa using hmem)
          rw [hk, hl] at hlk
          exact (Option.some.inj hlk).symm
        simp [hk, h2]
      · simp [hk]
    · rw [if_neg hcv]
      symm
      apply List.filter_eq_self.mpr
      intro kv hmem
      by_cases hk : kv.1 = k
      · have h2 : kv.2 = cv := by
          have hlk := lookupKey_of_mem_nodup hcur (show (kv.1, kv.2) ∈ cur by simpa using hmem)
          rw [hk, hl] at hlk
          exact (Option.some.inj hlk).symm
        simp [hk, h2, hcv]
      · simp [hk]

theorem keysNodup_popStep {cur : Record} (k pv : String) (hcur : keysNodup cur) :
    keysNodup (popStep cur k pv) := by
  rw [popStep_eq_filter k pv hcur]
  exact keysNodup_filter _ hcur

theorem popUnchanged_eq_specDelta (prev : Record) :
    ∀ cur : Record, keysNodup cur → keysNodup prev →
      popUnchanged cur prev = specDelta cur prev := by
  induction prev with
  | nil =>
    intro cur _ _
    unfold popUnchanged specDelta
    symm
    apply List.filter_eq_self.mpr
    intro kv _
    simp [lookupKey]
  | cons kpv rest ih =>
    obtain ⟨k, pv⟩ := kpv
    intro cur hcur hprev
    rw [keysNodup, List.map_cons, List.nodup_cons] at hprev
    have hstep := popStep_eq_filter k pv hcur
    have hnodup2 : keysNodup (popStep cur k pv) := keysNodup_popStep k pv hcur
    rw [popUnchanged_cons, ih _ hnodup2 hprev.2, hstep]
    unfold specDelta
    rw [List.filter_filter]
    apply List.filter_congr
    intro kv hmem
    by_cases hk : kv.1 = k
    · have hlk : lookupKey ((k, pv) :: rest) kv.1 = some pv := by
        simp [lookupKey, hk]
      have hrest : lookupKey rest kv.1 = none := by
        apply lookupKey_eq_none
        rw [hk]
        exact hprev.1
      rw [hlk, hrest]
      by_cases h2 : kv.2 = pv
      · simp [hk, h2]
      · have hne : pv ≠ kv.2 := fun hh => h2 hh.symm
        simp [hk, h2, hne]
    · have hlk : lookupKey ((k, pv) :: rest) kv.1 = lookupKey rest kv.1 := by
        have : k ≠ kv.1 := fun hh => hk hh.symm
        simp [lookupKey, this]
      rw [hlk]
      simp [hk]

theorem checkForUpdates_absent {current : Record} {saved : Snapshot} {uid : String}
    (hid : lookupKey current "chefUniqueId" = some uid)
    (habs : lookupKey saved uid = none) :
    checkForUpdatesInMetadata current saved = .ok current := by
  unfold checkForUpdatesInMetadata
  rw [hid]
  dsimp only
  rw [habs]

theorem checkForUpdates_present {current prev : Record} {saved : Snapshot} {uid : String}
    (hid : lookupKey current "chefUniqueId" = some uid)
    (hpres : lookupKey saved uid = some prev)
    (hcur : keysNodup current) (hprev : keysNodup prev)
    (hnoid : hasKey prev "chefUniqueId" = false) :
    checkForUpdatesInMetadata current saved
      = .ok (eraseKey (specDelta current prev) "chefUniqueId") := by
  unfold checkForUpdatesInMetadata
  rw [hid]
  dsimp only
  rw [hpres]
  dsimp only
  have hpop : popUnchanged current prev = specDelta current prev :=
    popUnchanged_eq_specDelta prev current hcur hprev
  have hlprev : lookupKey prev "chefUniqueId" = none := by
    cases hh : lookupKey prev "chefUniqueId" with
    | none => rfl
    | some v =>
      rw [hasKey, hh] at hnoid
      simp at hnoid
  have hmem2 : ("chefUniqueId", uid) ∈ specDelta current prev := by
    unfold specDelta
    apply List.mem_filter.mpr
    exact ⟨lookupKey_mem hid, by simp [hlprev]⟩
  have hhk : hasKey (popUnchanged current prev) "chefUniqueId" = true := by
    rw [hpop]
    exact hasKey_of_mem hmem2
  show (if hasKey (popUnchanged current prev) "chefUniqueId" = true then
      Except.ok (eraseKey (popUnchanged current prev) "chefUniqueId")
    else Except.error PyError.keyError) = _
  rw [if_pos hhk, hpop]

theorem checkForUpdates_self_empty {current : Record} {saved : Snapshot} {uid : String}
    (hid : lookupKey current "chefUniqueId" = some uid)
    (hcur : keysNodup current)
    (hpres : lookupKey saved uid = some (eraseKey current "chefUniqueId")) :
    checkForUpdatesInMetadata current saved = .ok [] := by
  have hprev : keysNodup (eraseKey current "chefUniqueId") := keysNodup_eraseKey _ hcur
  have hnoid : hasKey (eraseKey current "chefUniqueId") "chefUniqueId" = false :=
    hasKey_eraseKey_self _ hcur
  rw [checkForUpdates_present hid hpres hcur hprev hnoid]
  have hspec : specDelta current (eraseKey current "chefUniqueId")
      = current.filter (fun kv => decide (kv.1 = "chefUniqueId")) := by
    unfold specDelta
    apply List.filter_congr
    intro kv hmem
    by_cases hk : kv.1 = "chefUniqueId"
    · have hnone : lookupKey (eraseKey current "chefUniqueId") "chefUniqueId" = none := by
        rw [eraseKey_eq_filter _ hcur, lookupKey_filter_ne, if_pos rfl]
      simp [hnone, hk]
    · have hsame : lookupKey (eraseKey current "chefUniqueId") kv.1 = some kv.2 := by
        rw [lookupKey_eraseKey_ne _ hk]
        exact lookupKey_of_mem_nodup hcur (by simpa using hmem)
      simp [hsame, hk]
  rw [hspec, filter_key_eq_single hcur hid]
  simp [eraseKey]

/-! Lemmas about writing the snapshot. -/

theorem saveFold_ok :
    ∀ (nodes : List Record) (acc : Snapshot),
      (∀ n ∈ nodes, hasKey n "chefUniqueId" = true) →
      ∃ snap, saveFold nodes acc = .ok snap := by
  intro nodes
  induction nodes with
  | nil => exact fun acc _ => ⟨acc, rfl⟩
  | cons node rest ih =>
    intro acc h
    have hn := h node (List.mem_cons_self _ _)
    rw [hasKey, Option.isSome_iff_exists] at hn
    obtain ⟨uid, huid⟩ := hn
    simp only [saveFold, huid]
    exact ih _ (fun n hn2 => h n (List.mem_cons_of_mem _ hn2))

theorem saveFold_lookup_not_mem (uid : String) (snap : Snapshot) :
    ∀ (nodes : List Record) (acc : Snapshot), uid ∉ nodeIds nodes →
      saveFold nodes acc = .ok snap → lookupKey snap uid = lookupKey acc uid := by
  intro nodes
  induction nodes with
  | nil =>
    intro acc _ hrun
    simp only [saveFold] at hrun
    injection hrun with hh
    rw [hh]
  | cons node rest ih =>
    intro acc h hrun
    cases huid : lookupKey node "chefUniqueId" with
    | none => simp [saveFold, huid] at hrun
    | some uid0 =>
      simp only [saveFold, huid] at hrun
      simp only [nodeIds, List.filterMap_cons, huid, List.mem_cons] at h
      push_neg at h
      rw [ih _ h.2 hrun]
      exact lookupKey_dictInsert_ne _ _ h.1

theorem saveFold_lookup_mem (uid : String) (snap : Snapshot) (node : Record) :
    ∀ (nodes : List Record) (acc : Snapshot), (nodeIds nodes).Nodup →
      node ∈ nodes → lookupKey node "chefUniqueId" = some uid →
      saveFold nodes acc = .ok snap →
      lookupKey snap uid = some (eraseKey node "chefUniqueId") := by
  intro nodes
  induction nodes with
  | nil =>
    intro acc _ hmem
    simp at hmem
  | cons n0 rest ih =>
    intro acc hnodup hmem huid hrun
    cases h0 : lookupKey n0 "chefUniqueId" with
    | none => simp [saveFold, h0] at hrun
    | some uid0 =>
      simp only [saveFold, h0] at hrun
      simp only [nodeIds, List.filterMap_cons, h0] at hnodup
      rw [List.nodup_cons] at hnodup
      rcases List.mem_cons.mp hmem with rfl | hmem2
      · have heq : uid0 = uid := by
          rw [huid] at h0
          exact (Option.some.inj h0).symm
        subst heq
        rw [saveFold_lookup_not_mem uid0 snap rest _ hnodup.1 hrun]
        exact lookupKey_dictInsert_self _ _ _
      · exact ih _ hnodup.2 hmem2 huid hrun

/-! Lemmas about the per-node sync and the cycle. -/

theorem send_ok_inv {env : String → LookupResp} {pickleFile : Option Snapshot}
    {node : Record} {evs : List Event}
    (h : sendMetadataToSignalfx env pickleFile node = .ok evs) :
    ∃ uid, lookupKey node "chefUniqueId" = some uid ∧ (env uid).status = 200 ∧
      (((env uid).rs = [] ∧ evs = [.skipNotFound uid]) ∨
       (∃ oid rest delta, (env uid).rs = oid :: rest ∧
         checkForUpdatesWithFile node pickleFile = .ok delta ∧
         ((delta.isEmpty = true ∧ evs = [.diffDone uid, .noNewMetadata uid]) ∨
          (delta.isEmpty = false ∧ evs = [.diffDone uid, .patch uid oid delta])))) := by
  unfold sendMetadataToSignalfx at h
  cases huid : lookupKey node "chefUniqueId" with
  | none =>
    rw [huid] at h
    simp at h
  | some uid =>
    rw [huid] at h
    dsimp only at h
    refine ⟨uid, rfl, ?_⟩
    unfold getSignalfxObjectId at h
    by_cases hst : (env uid).status = 200
    · rw [if_neg (by simpa using hst)] at h
      dsimp only at h
      refine ⟨hst, ?_⟩
      cases hrs : (env uid).rs with
      | nil =>
        rw [hrs] at h
        dsimp only at h
        injection h with hh
        exact Or.inl ⟨rfl, hh.symm⟩
      | cons oid rest =>
        rw [hrs] at h
        dsimp only at h
        cases hchk : checkForUpdatesWithFile node pickleFile with
        | error e =>
          rw [hchk] at h
          simp at h
        | ok delta =>
          rw [hchk] at h
          dsimp only at h
          refine Or.inr ⟨oid, rest, delta, rfl, rfl, ?_⟩
          by_cases hemp : delta.isEmpty = true
          · rw [if_pos hemp] at h
            injection h with hh
            exact Or.inl ⟨hemp, hh.symm⟩
          · rw [if_neg hemp] at h
            injection h with hh
            exact Or.inr ⟨Bool.not_eq_true _ ▸ hemp, hh.symm⟩
    · rw [if_pos hst] at h
      simp at h

theorem send_no_save {env : String → LookupResp} {pickleFile : Option Snapshot}
    {node : Record} {evs : List Event}
    (h : sendMetadataToSignalfx env pickleFile node = .ok evs) :
    ∀ e ∈ evs, isSaveEvent e = false := by
  obtain ⟨uid, _, _, hcase⟩ := send_ok_inv h
  rcases hcase with ⟨_, rfl⟩ | ⟨oid, rest, delta, _, _, hcase2⟩
  · intro e he
    rw [List.mem_singleton] at he
    subst he
    rfl
  · rcases hcase2 with ⟨_, rfl⟩ | ⟨_, rfl⟩ <;>
      · intro e he
        rcases List.mem_cons.mp he with rfl | he2
        · rfl
        · rw [List.mem_singleton] at he2
          subst he2
          rfl

theorem send_event_uid {env : String → LookupResp} {pickleFile : Option Snapshot}
    {node : Record} {evs : List Event} {uid : String}
    (h : sendMetadataToSignalfx env pickleFile node = .ok evs)
    (huid : lookupKey node "chefUniqueId" = some uid) :
    ∀ e ∈ evs, eventUid e = some uid := by
  obtain ⟨uid2, huid2, _, hcase⟩ := send_ok_inv h
  have heq : uid2 = uid := by
    rw [huid] at huid2
    exact (Option.some.inj huid2).symm
  subst heq
  rcases hcase with ⟨_, rfl⟩ | ⟨oid, rest, delta, _, _, hcase2⟩
  · intro e he
    rw [List.mem_singleton] at he
    subst he
    rfl
  · rcases hcase2 with ⟨_, rfl⟩ | ⟨_, rfl⟩ <;>
      · intro e he
        rcases List.mem_cons.mp he with rfl | he2
        · rfl
        · rw [List.mem_singleton] at he2
          subst he2
          rfl

theorem syncNodes_cons_inv {env : String → LookupResp} {pickleFile : Option Snapshot}
    {node : Record} {rest : List Record} {evs : List Event}
    (h : syncNodes env pickleFile (node :: rest) = .ok evs) :
    ∃ evn evr, sendMetadataToSignalfx env pickleFile node = .ok evn ∧
      syncNodes env pickleFile rest = .ok evr ∧ evs = evn ++ evr := by
  unfold syncNodes at h
  cases hs : sendMetadataToSignalfx env pickleFile node with
  | error e =>
    rw [hs] at h
    simp at h
  | ok evn =>
    rw [hs] at h
    dsimp only at h
    cases hr : syncNodes env pickleFile rest with
    | error e =>
      rw [hr] at h
      simp at h
    | ok evr =>
      rw [hr] at h
      dsimp only at h
      injection h with hh
      exact ⟨evn, evr, rfl, rfl, hh.symm⟩

theorem syncNodes_mem_source {env : String → LookupResp} {pickleFile : Option Snapshot} :
    ∀ {nodes : List Record} {evs : List Event} {e : Event},
      syncNodes env pickleFile nodes = .ok evs → e ∈ evs →
      ∃ n ∈ nodes, ∃ evn, sendMetadataToSignalfx env pickleFile n = .ok evn ∧ e ∈ evn := by
  intro nodes
  induction nodes with
  | nil =>
    intro evs e h hmem
    simp only [syncNodes] at h
    injection h with hh
    subst hh
    simp at hmem
  | cons node rest ih =>
    intro evs e h hmem
    obtain ⟨evn, evr, hsend, hrest, rfl⟩ := syncNodes_cons_inv h
    rcases List.mem_append.mp hmem with h1 | h2
    · exact ⟨node, List.mem_cons_self _ _, evn, hsend, h1⟩
    · obtain ⟨n, hn, evn2, hs2, he2⟩ := ih hrest h2
      exact ⟨n, List.mem_cons_of_mem _ hn, evn2, hs2, he2⟩

theorem syncNodes_node_events {env : String → LookupResp} {pickleFile : Option Snapshot} :
    ∀ {nodes : List Record} {evs : List Event} {n : Record},
      syncNodes env pickleFile nodes = .ok evs → n ∈ nodes →
      ∃ evn, sendMetadataToSignalfx env pickleFile n = .ok evn ∧ ∀ e ∈ evn, e ∈ evs := by
  intro nodes
  induction nodes with
  | nil =>
    intro evs n _ hmem
    simp at hmem
  | cons node rest ih =>
    intro evs n h hmem
    obtain ⟨evn, evr, hsend, hrest, rfl⟩ := syncNodes_cons_inv h
    rcases List.mem_cons.mp hmem with rfl | hmem2
    · exact ⟨evn, hsend, fun e he => List.mem_append.mpr (Or.inl he)⟩
    · obtain ⟨evn2, hs2, hsub⟩ := ih hrest hmem2
      exact ⟨evn2, hs2, fun e he => List.mem_append.mpr (Or.inr (hsub e he))⟩

theorem syncNodes_all_ok {env : String → LookupResp} {pickleFile : Option Snapshot} :
    ∀ {nodes : List Record},
      (∀ n ∈ nodes, ∃ evn, sendMetadataToSignalfx env pickleFile n = .ok evn) →
      ∃ evs, syncNodes env pickleFile nodes = .ok evs := by
  intro nodes
  induction nodes with
  | nil => exact fun _ => ⟨[], rfl⟩
  | cons node rest ih =>
    intro h
    obtain ⟨evn, hsend⟩ := h node (List.mem_cons_self _ _)
    obtain ⟨evr, hrest⟩ := ih (fun n hn => h n (List.mem_cons_of_mem _ hn))
    refine ⟨evn ++ evr, ?_⟩
    simp only [syncNodes, hsend, hrest]

theorem syncNodes_countP_save {env : String → LookupResp} {pickleFile : Option Snapshot}
    {nodes : List Record} {evs : List Event}
    (h : syncNodes env pickleFile nodes = .ok evs) :
    evs.countP isSaveEvent = 0 := by
  rw [List.countP_eq_zero]
  intro e he
  obtain ⟨n, _, evn, hsend, hmem⟩ := syncNodes_mem_source h he
  rw [send_no_save hsend e hmem]
  simp

theorem syncNodes_append_ok {env : String → LookupResp} {pickleFile : Option Snapshot} :
    ∀ {pre : List Record} {evs0 : List Event} (l : List Record),
      syncNodes env pickleFile pre = .ok evs0 →
      syncNodes env pickleFile (pre ++ l)
        = match syncNodes env pickleFile l with
          | .error e => .error e
          | .ok evs1 => .ok (evs0 ++ evs1) := by
  intro pre
  induction pre with
  | nil =>
    intro evs0 l h
    simp only [syncNodes] at h
    injection h with hh
    subst hh
    simp only [List.nil_append]
    cases hl : syncNodes env pickleFile l with
    | error e => rfl
    | ok evs1 => simp
  | cons node rest ih =>
    intro evs0 l h
    obtain ⟨evn, evr, hsend, hrest, rfl⟩ := syncNodes_cons_inv h
    rw [List.cons_append]
    show (match sendMetadataToSignalfx env pickleFile node with
      | Except.error e => Except.error e
      | Except.ok evs =>
        match syncNodes env pickleFile (rest ++ l) with
        | Except.error e => Except.error e
        | Except.ok more => Except.ok (evs ++ more)) = _
    rw [hsend, ih l hrest]
    cases hl : syncNodes env pickleFile l with
    | error e => rfl
    | ok evs1 => simp

theorem runCycle_ok_inv {env : String → LookupResp} {nodes : List Record}
    {pickleFile : Option Snapshot} {evs : List Event} {snap : Snapshot}
    (h : runCycle env nodes pickleFile = .ok (evs, snap)) :
    ∃ evs0, syncNodes env pickleFile nodes = .ok evs0 ∧
      saveMetadata nodes = .ok snap ∧ evs = evs0 ++ [.save snap] := by
  unfold runCycle at h
  cases hs : syncNodes env pickleFile nodes with
  | error e =>
    rw [hs] at h
    simp at h
  | ok evs0 =>
    rw [hs] at h
    dsimp only at h
    cases hv : saveMetadata nodes with
    | error e =>
      rw [hv] at h
      simp at h
    | ok snap0 =>
      rw [hv] at h
      dsimp only at h
      injection h with hh
      rw [Prod.mk.injEq] at hh
      obtain ⟨h1, h2⟩ := hh
      subst h2
      exact ⟨evs0, rfl, rfl, h1.symm⟩

theorem runCycle_ok_build {env : String → LookupResp} {nodes : List Record}
    {pickleFile : Option Snapshot} {evs0 : List Event} {snap : Snapshot}
    (hs : syncNodes env pickleFile nodes = .ok evs0)
    (hv : saveMetadata nodes = .ok snap) :
    runCycle env nodes pickleFile = .ok (evs0 ++ [.save snap], snap) := by
  unfold runCycle
  rw [hs]
  dsimp only
  rw [hv]

/-! Lemmas about the name-pattern matcher. -/

theorem matchRest_iff (cs : List Char) :
    matchRest cs = true ↔
      (cs.all isNameRest = true ∨
       ∃ ds, cs = ds ++ ['\n'] ∧ ds.all isNameRest = true) := by
  induction cs with
  | nil =>
    simp [matchRest]
  | cons c cs ih =>
    constructor
    · intro h
      rw [matchRest, Bool.or_eq_true, Bool.and_eq_true, Bool.and_eq_true] at h
      rcases h with ⟨hc, hrest⟩ | ⟨hc, hemp⟩
      · rcases ih.mp hrest with hall | ⟨ds, rfl, hall⟩
        · exact Or.inl (by simp [List.all_cons, hc, hall])
        · exact Or.inr ⟨c :: ds, rfl, by simp [List.all_cons, hc, hall]⟩
      · rw [List.isEmpty_iff] at hemp
        subst hemp
        rw [decide_eq_true_eq] at hc
        subst hc
        exact Or.inr ⟨[], rfl, rfl⟩
    · intro h
      rcases h with hall | ⟨ds, heq, hall⟩
      · rw [List.all_cons, Bool.and_eq_true] at hall
        rw [matchRest, Bool.or_eq_true, Bool.and_eq_true]
        exact Or.inl ⟨hall.1, ih.mpr (Or.inl hall.2)⟩
      · cases ds with
        | nil =>
          rw [List.nil_append] at heq
          injection heq with h1 h2
          subst h1
          subst h2
          rfl
        | cons d ds2 =>
          rw [List.cons_append] at heq
          injection heq with h1 h2
          subst h1
          rw [List.all_cons, Bool.and_eq_true] at hall
          rw [matchRest, Bool.or_eq_true, Bool.and_eq_true]
          exact Or.inl ⟨hall.1, ih.mpr (Or.inr ⟨ds2, h2, hall.2⟩)⟩

theorem matchRest_eq_all_of_no_trailing {cs : List Char}
    (h : cs.getLast? ≠ some '\n') : matchRest cs = cs.all isNameRest := by
  cases hall : cs.all isNameRest with
  | true => exact (matchRest_iff cs).mpr (Or.inl hall)
  | false =>
    by_contra hmr
    rw [Bool.not_eq_false] at hmr
    rcases (matchRest_iff cs).mp hmr with h1 | ⟨ds, rfl, _⟩
    · rw [hall] at h1
      exact Bool.false_ne_true h1
    · rw [List.getLast?_append] at h
      simp at h

theorem checkPropertyName_eq_matches_of_no_trailing {t : String}
    (h : t.data.getLast? ≠ some '\n') :
    checkPropertyName t = matchesNamePattern t := by
  unfold checkPropertyName matchesNamePattern
  cases ht : t.data with
  | nil => rfl
  | cons c cs =>
    cases cs with
    | nil => rfl
    | cons c2 cs2 =>
      rw [ht, List.getLast?_cons_cons] at h
      dsimp only
      rw [matchRest_eq_all_of_no_trailing h]

theorem rstripNl_no_trailing (s : String) :
    (rstripNl s).data.getLast? ≠ some '\n' := by
  intro h
  have hdat : (rstripNl s).data = (s.data.reverse.dropWhile (fun c => decide (c = '\n'))).reverse :=
    rfl
  rw [hdat, List.getLast?_reverse] at h
  have hdw := List.head?_dropWhile_not (fun c => decide (c = '\n')) s.data.reverse
  rw [h] at hdw
  simp at hdw

theorem replaceDotUnderscore_no_trailing {t : String}
    (h : t.data.getLast? ≠ some '\n') :
    (replaceDotUnderscore t).data.getLast? ≠ some '\n' := by
  intro hc
  have hdat : (replaceDotUnderscore t).data
      = t.data.map (fun c => if c = '.' then '_' else c) := rfl
  rw [hdat, List.getLast?_map] at hc
  cases hl : t.data.getLast? with
  | none =>
    rw [hl] at hc
    simp at hc
  | some c =>
    rw [hl] at hc
    simp only [Option.map_some'] at hc
    injection hc with hc2
    by_cases hdot : c = '.'
    · rw [if_pos hdot] at hc2
      exact absurd hc2 (by decide)
    · rw [if_neg hdot] at hc2
      rw [hc2] at hl
      exact h hl

theorem checkPropertyName_empty : checkPropertyName "" = false := rfl

theorem rstripNl_newline : rstripNl "\n" = "" := rfl

theorem readConfig_cons_eq (line : String) (rest : List String) :
    readConfig (line :: rest)
      = (if claimKeepsLine line then [rstripNl line] else []) ++ readConfig rest := by
  rw [readConfig]
  by_cases h1 : startsWithHash line = true
  · rw [if_neg (by simp [h1]), claimKeepsLine, h1]
    simp
  · by_cases h2 : rstripNl line = ""
    · have hchk : checkPropertyName (replaceDotUnderscore (rstripNl line)) = false := by
        rw [h2]
        exact checkPropertyName_empty
      by_cases h3 : line = "\n"
      · rw [if_neg (by simp [h3])]
        rw [claimKeepsLine, h2]
        simp
      · rw [if_pos ⟨by simp [h1], h3⟩, if_neg (by simp [hchk])]
        rw [claimKeepsLine, h2]
        simp
    · have h3 : line ≠ "\n" := by
        intro hh
        rw [hh, rstripNl_newline] at h2
        exact h2 rfl
      have hnt : (replaceDotUnderscore (rstripNl line)).data.getLast? ≠ some '\n' :=
        replaceDotUnderscore_no_trailing (rstripNl_no_trailing line)
      have heq : checkPropertyName (replaceDotUnderscore (rstripNl line))
          = matchesNamePattern (replaceDotUnderscore (rstripNl line)) :=
        checkPropertyName_eq_matches_of_no_trailing hnt
      rw [if_pos ⟨by simp [h1], h3⟩]
      rw [claimKeepsLine]
      rw [Bool.not_eq_true] at h1
      rw [h1]
      cases hm : matchesNamePattern (replaceDotUnderscore (rstripNl line)) with
      | true =>
        rw [if_pos (heq.trans hm)]
        simp [h2]
      | false =>
        rw [if_neg (by simp [heq.trans hm])]
        simp

/-! Lemmas about collecting a node's record. -/

theorem collectAttrs_ok {tree : AttrValue} :
    ∀ (attribs : List String) (record : Record),
      (∀ a ∈ attribs, ∃ r, getAttributeValue a tree = .ok r) →
      ∃ rec, collectAttrs tree attribs record = .ok rec := by
  intro attribs
  induction attribs with
  | nil => exact fun record _ => ⟨record, rfl⟩
  | cons a rest ih =>
    intro record h
    obtain ⟨r, hr⟩ := h a (List.mem_cons_self _ _)
    have hrest := fun b hb => h b (List.mem_cons_of_mem _ hb)
    cases r with
    | none =>
      simp only [collectAttrs, hr]
      exact ih _ hrest
    | some s =>
      simp only [collectAttrs, hr]
      by_cases hs : s = ""
      · rw [if_pos hs]
        exact ih _ hrest
      · rw [if_neg hs]
        exact ih _ hrest

theorem collectAttrs_lookup_untouched {tree : AttrValue} :
    ∀ (attribs : List String) (record rec : Record) (key : String),
      key ∉ attribs.map adjustAttributeName →
      collectAttrs tree attribs record = .ok rec →
      lookupKey rec key = lookupKey record key := by
  intro attribs
  induction attribs with
  | nil =>
    intro record rec key _ hrun
    simp only [collectAttrs] at hrun
    injection hrun with hh
    rw [hh]
  | cons a rest ih =>
    intro record rec key hkey hrun
    simp only [List.map_cons, List.mem_cons] at hkey
    push_neg at hkey
    cases hr : getAttributeValue a tree with
    | error e => simp [collectAttrs, hr] at hrun
    | ok r =>
      cases r with
      | none =>
        simp only [collectAttrs, hr] at hrun
        exact ih _ _ _ hkey.2 hrun
      | some s =>
        simp only [collectAttrs, hr] at hrun
        by_cases hs : s = ""
        · rw [if_pos hs] at hrun
          exact ih _ _ _ hkey.2 hrun
        · rw [if_neg hs] at hrun
          rw [ih _ _ _ hkey.2 hrun]
          exact lookupKey_dictInsert_ne _ _ hkey.1

theorem collectAttrs_lookup_hit {tree : AttrValue} :
    ∀ (attribs : List String) (record rec : Record) (a : String),
      (attribs.map adjustAttributeName).Nodup →
      a ∈ attribs →
      collectAttrs tree attribs record = .ok rec →
      lookupKey record (adjustAttributeName a) = none →
      ((∀ v, getAttributeValue a tree = .ok (some v) → v ≠ "" →
        lookupKey rec (adjustAttributeName a) = some v) ∧
       ((getAttributeValue a tree = .ok none ∨ getAttributeValue a tree = .ok (some "")) →
        lookupKey rec (adjustAttributeName a) = none)) := by
  intro attribs
  induction attribs with
  | nil =>
    intro record rec a _ hmem
    simp at hmem
  | cons b rest ih =>
    intro record rec a hnodup hmem hrun hnone
    rw [List.map_cons, List.nodup_cons] at hnodup
    rcases List.mem_cons.mp hmem with rfl | hmem2
    · cases hr : getAttributeValue a tree with
      | error e => simp [collectAttrs, hr] at hrun
      | ok r =>
        cases r with
        | none =>
          simp only [collectAttrs, hr] at hrun
          constructor
          · intro v hv
            exact absurd (Except.ok.inj hv) (by simp)
          · intro _
            rw [collectAttrs_lookup_untouched rest record rec _ hnodup.1 hrun]
            exact hnone
        | some s =>
          simp only [collectAttrs, hr] at hrun
          by_cases hs : s = ""
          · rw [if_pos hs] at hrun
            subst hs
            constructor
            · intro v hv hvne
              have : some "" = some v := Except.ok.inj hv
              exact absurd (Option.some.inj this).symm hvne
            · intro _
              rw [collectAttrs_lookup_untouched rest record rec _ hnodup.1 hrun]
              exact hnone
          · rw [if_neg hs] at hrun
            constructor
            · intro v hv _
              have hv2 : s = v := Option.some.inj (Except.ok.inj hv)
              subst hv2
              rw [collectAttrs_lookup_untouched rest _ rec _ hnodup.1 hrun]
              exact lookupKey_dictInsert_self _ _ _
            · intro hcase
              rcases hcase with hc | hc
              · exact absurd (Except.ok.inj hc) (by simp)
              · have : s = "" := Option.some.inj (Except.ok.inj hc)
                exact absurd this hs
    · have hne : adjustAttributeName a ≠ adjustAttributeName b := by
        intro hh
        apply hnodup.1
        rw [← hh]
        exact List.mem_map.mpr ⟨a, hmem2, rfl⟩
      cases hr : getAttributeValue b tree with
      | error e => simp [collectAttrs, hr] at hrun
      | ok r =>
        cases r with
        | none =>
          simp only [collectAttrs, hr] at hrun
          exact ih _ _ _ hnodup.2 hmem2 hrun hnone
        | some s =>
          simp only [collectAttrs, hr] at hrun
          by_cases hs : s = ""
          · rw [if_pos hs] at hrun
            exact ih _ _ _ hnodup.2 hmem2 hrun hnone
          · rw [if_neg hs] at hrun
            apply ih _ _ _ hnodup.2 hmem2 hrun
            rw [lookupKey_dictInsert_ne _ _ hne]
            exact hnone

/-! The claims. -/

/-- C9 counterexample: the claim says every string violating the pattern
`^[a-zA-Z_][a-zA-Z0-9_-]*$` is rejected, but Python's `$` also matches just
before one trailing newline, so `"abc\n"` — which is not in the pattern's
language — is accepted by `Metadata.checkPropertyNameSyntax`. -/
theorem C9_counterexample :
    checkPropertyName "abc\n" = true ∧ matchesNamePattern "abc\n" = false :=
  ⟨rfl, rfl⟩

/-- C9 (amended): the syntax check accepts exactly the strings of the
pattern's language plus those consisting of a language member followed by
one trailing newline (Python `$` semantics); in particular every string of
the language is accepted, and strings containing `'.'` or starting with a
digit are rejected. -/
theorem C9_pattern_check (s : String) :
    checkPropertyName s = true ↔
      (matchesNamePattern s = true ∨
       ∃ t, matchesNamePattern t = true ∧ s = t ++ "\n") := by
  constructor
  · intro h
    unfold checkPropertyName at h
    cases hs : s.data with
    | nil =>
      rw [hs] at h
      simp at h
    | cons c cs =>
      rw [hs] at h
      dsimp only at h
      rw [Bool.and_eq_true] at h
      rcases (matchRest_iff cs).mp h.2 with hall | ⟨ds, hds, hall⟩
      · left
        unfold matchesNamePattern
        rw [hs]
        dsimp only
        rw [Bool.and_eq_true]
        exact ⟨h.1, hall⟩
      · right
        refine ⟨String.mk (c :: ds), ?_, ?_⟩
        · unfold matchesNamePattern
          dsimp only
          rw [Bool.and_eq_true]
          exact ⟨h.1, hall⟩
        · apply String.ext
          rw [String.data_append]
          show s.data = (c :: ds) ++ ['\n']
          rw [hs, hds]
          rfl
  · intro h
    rcases h with hm | ⟨t, hm, rfl⟩
    · unfold matchesNamePattern at hm
      unfold checkPropertyName
      cases hs : s.data with
      | nil =>
        rw [hs] at hm
        simp at hm
      | cons c cs =>
        rw [hs] at hm
        dsimp only at hm
        rw [Bool.and_eq_true] at hm
        dsimp only
        rw [Bool.and_eq_true]
        exact ⟨hm.1, (matchRest_iff cs).mpr (Or.inl hm.2)⟩
    · unfold matchesNamePattern at hm
      unfold checkPropertyName
      have hdata : (t ++ "\n").data = t.data ++ ['\n'] := by
        rw [String.data_append]
      cases ht : t.data with
      | nil =>
        rw [ht] at hm
        simp at hm
      | cons c cs =>
        rw [ht] at hm
        dsimp only at hm
        rw [Bool.and_eq_true] at hm
        rw [hdata, ht, List.cons_append]
        dsimp only
        rw [Bool.and_eq_true]
        exact ⟨hm.1, (matchRest_iff (cs ++ ['\n'])).mpr (Or.inr ⟨cs, rfl, hm.2⟩)⟩

/-- C7: `Metadata.readConfig` keeps exactly the lines that are not blank,
do not begin with `#`, and whose `'.'`-to-`'_'` substituted form matches
the naming pattern — in file order, with trailing newlines removed.  (An
invalid line is only excluded, never a failure; the per-line error logging
is a side effect outside the embedding.) -/
theorem C7_readConfig_filters (lines : List String) :
    readConfig lines = (lines.filter claimKeepsLine).map rstripNl := by
  induction lines with
  | nil => rfl
  | cons line rest ih =>
    rw [readConfig_cons_eq, List.filter_cons, ih]
    cases hc : claimKeepsLine line with
    | true => simp
    | false => simp

theorem all_str_no_dict {xs : List AttrValue} (h : xs.all isStrVal = true) :
    xs.any isDictVal = false := by
  cases hany : xs.any isDictVal with
  | false => rfl
  | true =>
    rw [List.any_eq_true] at hany
    obtain ⟨x, hx, hdx⟩ := hany
    rw [List.all_eq_true] at h
    have hsx := h x hx
    cases x <;> simp [isStrVal, isDictVal] at hsx hdx

/-- C4 (amended): the resolver walks the tree token-by-token and returns
`None` when any step fails; returns `None` when the final value is a
mapping; returns the string of a scalar; `'$'`-joins a list of strings;
and a list containing a nested mapping is NOT surfaced as an error — it
falls through to the generic `str()` conversion, whose result the caller
stores like any other value. -/
theorem C4_resolver_cases (attrib : String) (tree : AttrValue) :
    (resolvePath (splitTokens attrib) tree = none →
      getAttributeValue attrib tree = .ok none) ∧
    (∀ entries, resolvePath (splitTokens attrib) tree = some (.dict entries) →
      getAttributeValue attrib tree = .ok none) ∧
    (∀ s, resolvePath (splitTokens attrib) tree = some (.str s) →
      getAttributeValue attrib tree = .ok (some s)) ∧
    (∀ n, resolvePath (splitTokens attrib) tree = some (.int n) →
      getAttributeValue attrib tree = .ok (some (toString n))) ∧
    (∀ xs, resolvePath (splitTokens attrib) tree = some (.list xs) →
      xs.all isStrVal = true →
      getAttributeValue attrib tree = .ok (some (joinWith "$" (xs.map strVal)))) ∧
    (∀ xs, resolvePath (splitTokens attrib) tree = some (.list xs) →
      xs.any isDictVal = true →
      getAttributeValue attrib tree = .ok (some (pyStr (.list xs)))) := by
  refine ⟨?_, ?_, ?_, ?_, ?_, ?_⟩
  · intro h
    unfold getAttributeValue
    rw [h]
  · intro entries h
    unfold getAttributeValue
    rw [h]
    dsimp only [isDictVal]
    simp
  · intro s h
    unfold getAttributeValue
    rw [h]
    dsimp only [isDictVal, pyStr]
    simp
  · intro n h
    unfold getAttributeValue
    rw [h]
    dsimp only [isDictVal, pyStr]
    simp [pyRepr]
  · intro xs h hall
    unfold getAttributeValue
    rw [h]
    dsimp only [isDictVal]
    rw [all_str_no_dict hall]
    simp [hall]
  · intro xs h hany
    unfold getAttributeValue
    rw [h]
    dsimp only [isDictVal]
    simp [hany]

/-- C4 counterexample: for the path `["roles"]` in a tree whose `roles`
value is a list containing a mapping, the claim says the resolver
surfaces the value as unsupported and the caller errors out; in fact
`getAttributeValue` returns `str()` of the whole list — here
`[{'a': 'b'}]` — and `getNodeInformation` stores it in the record without
any error. -/
theorem C4_counterexample :
    getAttributeValue "roles" (.dict [("roles", .list [.dict [("a", .str "b")]])])
      = .ok (some ("[\x7b" ++ String.mk [sqChar] ++ "a" ++ String.mk [sqChar] ++ ": "
        ++ String.mk [sqChar] ++ "b" ++ String.mk [sqChar] ++ "\x7d]")) ∧
    getAttributeValue "roles" (.dict [("roles", .list [.dict [("a", .str "b")]])])
      ≠ .ok none ∧
    getNodeInformation "sfx" "n1" "prod"
        (.dict [("roles", .list [.dict [("a", .str "b")]])]) ["roles"]
      = .ok [("chefUniqueId", "sfx_n1"), ("chef_environment", "prod"),
             ("chef_roles", "[\x7b" ++ String.mk [sqChar] ++ "a" ++ String.mk [sqChar] ++ ": "
               ++ String.mk [sqChar] ++ "b" ++ String.mk [sqChar] ++ "\x7d]")] :=
  ⟨rfl, by decide, rfl⟩

/-- C4 witness: the amended characterization applied to the spec's own
examples. -/
theorem C4_witness :
    getAttributeValue "languages.python.version"
        (.dict [("languages", .dict [("python", .dict [("version", .str "2.7.8")])])])
      = .ok (some "2.7.8") ∧
    getAttributeValue "roles" (.dict [("roles", .list [.str "web server", .str "web cache"])])
      = .ok (some "web server$web cache") ∧
    getAttributeValue "languages.python"
        (.dict [("languages", .dict [("python", .dict [("version", .str "2.7.8")])])])
      = .ok none ∧
    getAttributeValue "missing.path" (.dict []) = .ok none :=
  ⟨(C4_resolver_cases "languages.python.version"
      (.dict [("languages", .dict [("python", .dict [("version", .str "2.7.8")])])])).2.2.1
    "2.7.8" rfl,
   (C4_resolver_cases "roles"
      (.dict [("roles", .list [.str "web server", .str "web cache"])])).2.2.2.2.1
    [.str "web server", .str "web cache"] rfl rfl,
   (C4_resolver_cases "languages.python"
      (.dict [("languages", .dict [("python", .dict [("version", .str "2.7.8")])])])).2.1
    [("version", .str "2.7.8")] rfl,
   (C4_resolver_cases "missing.path" (.dict [])).1 rfl⟩

/-- C8 (amended): the collected record always contains `chef_environment`
(and the identity under `chefUniqueId`); for each configured path the
record maps the sanitized key to the string form of the resolved value if
and only if resolution yields a *non-empty* value — Python's truthiness
test `if attributeValue:` also drops an empty string (e.g. the `'$'`-join
of an empty list), not only `None`; either way the node's collection does
not fail. -/
theorem C8_record_contents (organization node_name chef_env : String) (tree : AttrValue)
    (config : List String)
    (hok : ∀ a ∈ config, ∃ r, getAttributeValue a tree = .ok r)
    (hnodup : (config.map adjustAttributeName).Nodup)
    (hne : ∀ a ∈ config, adjustAttributeName a ≠ "chef_environment" ∧
      adjustAttributeName a ≠ "chefUniqueId") :
    ∃ rec, getNodeInformation organization node_name chef_env tree config = .ok rec ∧
      lookupKey rec "chef_environment" = some chef_env ∧
      lookupKey rec "chefUniqueId" = some (organization ++ "_" ++ node_name) ∧
      ∀ a ∈ config,
        (∀ v, getAttributeValue a tree = .ok (some v) → v ≠ "" →
          lookupKey rec (adjustAttributeName a) = some v) ∧
        ((getAttributeValue a tree = .ok none ∨ getAttributeValue a tree = .ok (some "")) →
          hasKey rec (adjustAttributeName a) = false) := by
  obtain ⟨rec, hrec⟩ := collectAttrs_ok config
    [("chefUniqueId", organization ++ "_" ++ node_name), ("chef_environment", chef_env)] hok
  refine ⟨rec, hrec, ?_, ?_, ?_⟩
  · have hnm : "chef_environment" ∉ config.map adjustAttributeName := by
      intro hmem
      obtain ⟨a, ha, haeq⟩ := List.mem_map.mp hmem
      exact (hne a ha).1 haeq
    rw [collectAttrs_lookup_untouched config _ rec _ hnm hrec]
    have : ("chefUniqueId" : String) ≠ "chef_environment" := by decide
    simp [lookupKey, this]
  · have hnm : "chefUniqueId" ∉ config.map adjustAttributeName := by
      intro hmem
      obtain ⟨a, ha, haeq⟩ := List.mem_map.mp hmem
      exact (hne a ha).2 haeq
    rw [collectAttrs_lookup_untouched config _ rec _ hnm hrec]
    simp [lookupKey]
  · intro a ha
    have h1 : "chef_environment" ≠ adjustAttributeName a := fun hh => (hne a ha).1 hh.symm
    have h2 : "chefUniqueId" ≠ adjustAttributeName a := fun hh => (hne a ha).2 hh.symm
    have hinit : lookupKey [("chefUniqueId", organization ++ "_" ++ node_name),
        ("chef_environment", chef_env)] (adjustAttributeName a) = none := by
      simp [lookupKey, h1, h2]
    have hmain := collectAttrs_lookup_hit config _ rec a hnodup ha hrec hinit
    refine ⟨hmain.1, ?_⟩
    intro hcase
    rw [hasKey, hmain.2 hcase]
    rfl

/-- C8 counterexample: for the configured path `roles` on a node whose
`roles` attribute is the empty list, resolution yields a value (the empty
string, the `'$'`-join of no elements), yet the key `chef_roles` is
omitted from the record — the claim's "if and only if resolution yields a
value" fails on empty-string values. -/
theorem C8_counterexample :
    getAttributeValue "roles" (.dict [("roles", .list [])]) = .ok (some "") ∧
    getNodeInformation "sfx" "n1" "prod" (.dict [("roles", .list [])]) ["roles"]
      = .ok [("chefUniqueId", "sfx_n1"), ("chef_environment", "prod")] ∧
    hasKey [("chefUniqueId", "sfx_n1"), ("chef_environment", "prod")]
      (adjustAttributeName "roles") = false :=
  ⟨rfl, rfl, rfl⟩

/-- C8 witness: the amended record characterization at a concrete node. -/
theorem C8_witness :
    (∀ a ∈ ["languages.python.version"],
      ∃ r, getAttributeValue a
        (.dict [("languages", .dict [("python", .dict [("version", .str "2.7.8")])])]) = .ok r) ∧
    ((["languages.python.version"].map adjustAttributeName).Nodup) ∧
    ∃ rec, getNodeInformation "sfx" "n1" "prod"
        (.dict [("languages", .dict [("python", .dict [("version", .str "2.7.8")])])])
        ["languages.python.version"] = .ok rec ∧
      lookupKey rec "chef_environment" = some "prod" ∧
      lookupKey rec "chefUniqueId" = some ("sfx" ++ "_" ++ "n1") ∧
      ∀ a ∈ ["languages.python.version"],
        (∀ v, getAttributeValue a
            (.dict [("languages", .dict [("python", .dict [("version", .str "2.7.8")])])])
            = .ok (some v) → v ≠ "" →
          lookupKey rec (adjustAttributeName a) = some v) ∧
        ((getAttributeValue a
            (.dict [("languages", .dict [("python", .dict [("version", .str "2.7.8")])])])
            = .ok none ∨
          getAttributeValue a
            (.dict [("languages", .dict [("python", .dict [("version", .str "2.7.8")])])])
            = .ok (some "")) →
          hasKey rec (adjustAttributeName a) = false) :=
  ⟨fun a ha => ⟨some "2.7.8", by
      rw [List.mem_singleton] at ha
      subst ha
      rfl⟩,
   by decide,
   C8_record_contents "sfx" "n1" "prod"
     (.dict [("languages", .dict [("python", .dict [("version", .str "2.7.8")])])])
     ["languages.python.version"]
     (fun a ha => ⟨some "2.7.8", by
        rw [List.mem_singleton] at ha
        subst ha
        rfl⟩)
     (by decide)
     (by decide)⟩

theorem keysNodup_popUnchanged :
    ∀ (prev cur : Record), keysNodup cur → keysNodup (popUnchanged cur prev)
  | [], _, h => h
  | _ :: rest, _, h =>
    keysNodup_popUnchanged rest _ (keysNodup_popStep _ _ h)

/-- C1 (amended): for an identity absent from the snapshot the diff
returns the current record unchanged; for an identity present it returns
the entries that are new or changed (`specDelta`, exact string equality),
*with the `chefUniqueId` entry additionally removed*; a current record
that differs from the stored one only by its `chefUniqueId` entry yields
an empty delta. -/
theorem C1_diff_characterization (current : Record) (saved : Snapshot) (uid : String)
    (hid : lookupKey current "chefUniqueId" = some uid) :
    (lookupKey saved uid = none → checkForUpdatesInMetadata current saved = .ok current) ∧
    (∀ prev, lookupKey saved uid = some prev → keysNodup current → keysNodup prev →
      hasKey prev "chefUniqueId" = false →
      checkForUpdatesInMetadata current saved
        = .ok (eraseKey (specDelta current prev) "chefUniqueId")) ∧
    (∀ prev, lookupKey saved uid = some prev → keysNodup current →
      prev = eraseKey current "chefUniqueId" →
      checkForUpdatesInMetadata current saved = .ok []) := by
  refine ⟨fun habs => checkForUpdates_absent hid habs,
          fun prev hpres hcur hprev hnoid => checkForUpdates_present hid hpres hcur hprev hnoid,
          fun prev hpres hcur hpe => ?_⟩
  subst hpe
  exact checkForUpdates_self_empty hid hcur hpres

/-- C1 counterexample: identity `org_n1` is present in the snapshot with a
stored empty record, and the current record is
`{chefUniqueId: org_n1, a: 1}`; both entries are new relative to the
stored record, so the claim says the diff is the whole current record —
but the code also pops `chefUniqueId` and returns only `{a: 1}`. -/
theorem C1_counterexample :
    lookupKey [("org_n1", ([] : Record))] "org_n1" = some [] ∧
    specDelta [("chefUniqueId", "org_n1"), ("a", "1")] []
      = [("chefUniqueId", "org_n1"), ("a", "1")] ∧
    checkForUpdatesInMetadata [("chefUniqueId", "org_n1"), ("a", "1")] [("org_n1", [])]
      = .ok [("a", "1")] ∧
    (Except.ok ([("a", "1")] : Record) : Except PyError Record)
      ≠ .ok [("chefUniqueId", "org_n1"), ("a", "1")] :=
  ⟨rfl, rfl, rfl, by decide⟩

/-- C1 witness: the amended characterization evaluated on the spec's diff
round-trip examples. -/
theorem C1_witness :
    checkForUpdatesInMetadata [("chefUniqueId", "org_n1"), ("chef_environment", "prod")] []
      = .ok [("chefUniqueId", "org_n1"), ("chef_environment", "prod")] ∧
    checkForUpdatesInMetadata [("chefUniqueId", "org_n1"), ("chef_environment", "prod")]
      [("org_n1", [("chef_environment", "prod")])] = .ok [] :=
  ⟨(C1_diff_characterization
      [("chefUniqueId", "org_n1"), ("chef_environment", "prod")] [] "org_n1" rfl).1 rfl,
   (C1_diff_characterization
      [("chefUniqueId", "org_n1"), ("chef_environment", "prod")]
      [("org_n1", [("chef_environment", "prod")])] "org_n1" rfl).2.2
    [("chef_environment", "prod")] rfl (by decide) rfl⟩

/-- C10: the diff removes the `chefUniqueId` entry only in the branch
where the identity is already a snapshot key; for an identity absent from
the snapshot the full current record — `chefUniqueId` included — is
returned, so the very first patch transmitted for a node carries the
node's identity as one of the changed keys. -/
theorem C10_identity_asymmetry :
    (∀ (current : Record) (saved : Snapshot) (uid : String),
      lookupKey current "chefUniqueId" = some uid →
      lookupKey saved uid = none →
      checkForUpdatesInMetadata current saved = .ok current ∧
        hasKey current "chefUniqueId" = true) ∧
    (∀ (current prev r : Record) (saved : Snapshot) (uid : String),
      lookupKey current "chefUniqueId" = some uid →
      lookupKey saved uid = some prev →
      keysNodup current →
      checkForUpdatesInMetadata current saved = .ok r →
      hasKey r "chefUniqueId" = false) ∧
    (∀ (env : String → LookupResp) (nodes : List Record) (pickleSnap : Snapshot)
       (node : Record) (uid oid : String) (rs : List String)
       (evs : List Event) (snap : Snapshot),
      runCycle env nodes (some pickleSnap) = .ok (evs, snap) →
      node ∈ nodes →
      lookupKey node "chefUniqueId" = some uid →
      lookupKey pickleSnap uid = none →
      (env uid).rs = oid :: rs →
      Event.patch uid oid node ∈ evs ∧ ("chefUniqueId", uid) ∈ node) := by
  refine ⟨?_, ?_, ?_⟩
  · intro current saved uid hid habs
    refine ⟨checkForUpdates_absent hid habs, ?_⟩
    rw [hasKey, hid]
    rfl
  · intro current prev r saved uid hid hpres hcur hrun
    unfold checkForUpdatesInMetadata at hrun
    rw [hid] at hrun
    dsimp only at hrun
    rw [hpres] at hrun
    dsimp only at hrun
    by_cases hpk : hasKey (popUnchanged current prev) "chefUniqueId" = true
    · rw [if_pos hpk] at hrun
      injection hrun with hh
      rw [← hh]
      exact hasKey_eraseKey_self _ (keysNodup_popUnchanged prev current hcur)
    · rw [if_neg hpk] at hrun
      exact absurd hrun (by simp)
  · intro env nodes pickleSnap node uid oid rs evs snap hrun hmem hid habs hrs
    obtain ⟨evs0, hsync, hsave, rfl⟩ := runCycle_ok_inv hrun
    obtain ⟨evn, hsend, hsub⟩ := syncNodes_node_events hsync hmem
    obtain ⟨uid2, hid2, hst, hcase⟩ := send_ok_inv hsend
    have huideq : uid2 = uid := by
      rw [hid] at hid2
      exact (Option.some.inj hid2).symm
    subst huideq
    have hmemnode : ("chefUniqueId", uid2) ∈ node := lookupKey_mem hid
    rcases hcase with ⟨hrs0, _⟩ | ⟨oid2, rest2, delta, hrs2, hchk, hcase2⟩
    · rw [hrs] at hrs0
      exact absurd hrs0 (by simp)
    · rw [hrs] at hrs2
      injection hrs2 with ho hr
      subst ho
      have hwf : checkForUpdatesWithFile node (some pickleSnap) = .ok node := by
        show checkForUpdatesInMetadata node pickleSnap = .ok node
        exact checkForUpdates_absent hid habs
      rw [hwf] at hchk
      have hdelta : node = delta := Except.ok.inj hchk
      subst hdelta
      rcases hcase2 with ⟨hemp, _⟩ | ⟨_, hevn⟩
      · rw [List.isEmpty_iff] at hemp
        rw [hemp] at hmemnode
        simp at hmemnode
      · subst hevn
        exact ⟨List.mem_append.mpr (Or.inl (hsub (Event.patch uid2 oid node) (by simp))), hmemnode⟩

/-- C10 witness: both diff branches and the first-patch consequence at
concrete inputs. -/
theorem C10_witness :
    checkForUpdatesInMetadata [("chefUniqueId", "org_n1"), ("a", "1")] []
      = .ok [("chefUniqueId", "org_n1"), ("a", "1")] ∧
    hasKey [("a", "1")] "chefUniqueId" = false ∧
    Event.patch "org_n1" "oid1" [("chefUniqueId", "org_n1"), ("chef_environment", "prod")]
      ∈ [Event.diffDone "org_n1",
         Event.patch "org_n1" "oid1" [("chefUniqueId", "org_n1"), ("chef_environment", "prod")],
         Event.save [("org_n1", [("chef_environment", "prod")])]] :=
  ⟨(C10_identity_asymmetry.1 [("chefUniqueId", "org_n1"), ("a", "1")] [] "org_n1" rfl rfl).1,
   C10_identity_asymmetry.2.1 [("chefUniqueId", "org_n1"), ("a", "1")] [] [("a", "1")]
     [("org_n1", [])] "org_n1" rfl rfl (by decide) rfl,
   (C10_identity_asymmetry.2.2 (fun _ => ⟨200, ["oid1"]⟩)
     [[("chefUniqueId", "org_n1"), ("chef_environment", "prod")]] []
     [("chefUniqueId", "org_n1"), ("chef_environment", "prod")] "org_n1" "oid1" []
     [Event.diffDone "org_n1",
      Event.patch "org_n1" "oid1" [("chefUniqueId", "org_n1"), ("chef_environment", "prod")],
      Event.save [("org_n1", [("chef_environment", "prod")])]]
     [("org_n1", [("chef_environment", "prod")])]
     rfl (by simp) rfl rfl rfl).1⟩

/-- C3: the claim says a missing snapshot store on a first-ever run is not
an error and every record is treated as new; in the code,
`checkForUpdatesInMetadata` opens the pickle file unconditionally, so on a
first run the very first diff attempt raises an uncaught
`FileNotFoundError` and the whole run aborts with a non-zero exit
status — the code contradicts the claim. -/
theorem C3_missing_snapshot_fatal :
    checkForUpdatesWithFile [("chefUniqueId", "org_n1"), ("chef_environment", "prod")] none
      = .error .fileNotFound ∧
    runCycle (fun _ => ⟨200, ["oid1"]⟩)
      [[("chefUniqueId", "org_n1"), ("chef_environment", "prod")]] none
      = .error (.uncaughtException .fileNotFound) ∧
    abortExitCode (.uncaughtException .fileNotFound) ≠ 0 :=
  ⟨rfl, rfl, by decide⟩

/-- C2: at the end of every completed cycle the snapshot is written
exactly once, as the last action after all per-node sync attempts, and it
maps each collected node's identity to that node's freshly collected
record of this cycle (whatever each node's sync outcome was), with the
identity kept only as the lookup key and popped out of the stored
record. -/
theorem C2_snapshot_write (env : String → LookupResp) (nodes : List Record)
    (pickleFile : Option Snapshot) (evs : List Event) (snap : Snapshot)
    (hrun : runCycle env nodes pickleFile = .ok (evs, snap)) :
    evs.countP isSaveEvent = 1 ∧
    evs.getLast? = some (.save snap) ∧
    ((nodeIds nodes).Nodup →
      ∀ node ∈ nodes, ∀ uid, lookupKey node "chefUniqueId" = some uid →
        keysNodup node →
        lookupKey snap uid = some (eraseKey node "chefUniqueId") ∧
        hasKey (eraseKey node "chefUniqueId") "chefUniqueId" = false) := by
  obtain ⟨evs0, hsync, hsave, rfl⟩ := runCycle_ok_inv hrun
  refine ⟨?_, ?_, ?_⟩
  · rw [List.countP_append, syncNodes_countP_save hsync]
    rfl
  · rw [List.getLast?_concat]
  · intro hids node hmem uid huid hkeys
    exact ⟨saveFold_lookup_mem uid snap node nodes [] hids hmem huid hsave,
           hasKey_eraseKey_self _ hkeys⟩

/-- C2 witness: one concrete completed cycle. -/
theorem C2_witness :
    runCycle (fun _ => ⟨200, ["oid1"]⟩)
        [[("chefUniqueId", "org_n1"), ("chef_environment", "prod")]] (some [])
      = .ok ([Event.diffDone "org_n1",
              Event.patch "org_n1" "oid1"
                [("chefUniqueId", "org_n1"), ("chef_environment", "prod")],
              Event.save [("org_n1", [("chef_environment", "prod")])]],
             [("org_n1", [("chef_environment", "prod")])]) ∧
    [Event.diffDone "org_n1",
     Event.patch "org_n1" "oid1" [("chefUniqueId", "org_n1"), ("chef_environment", "prod")],
     Event.save [("org_n1", [("chef_environment", "prod")])]].countP isSaveEvent = 1 ∧
    [Event.diffDone "org_n1",
     Event.patch "org_n1" "oid1" [("chefUniqueId", "org_n1"), ("chef_environment", "prod")],
     Event.save [("org_n1", [("chef_environment", "prod")])]].getLast?
      = some (.save [("org_n1", [("chef_environment", "prod")])]) ∧
    lookupKey [("org_n1", [("chef_environment", "prod")])] "org_n1"
      = some (eraseKey [("chefUniqueId", "org_n1"), ("chef_environment", "prod")]
          "chefUniqueId") :=
  have h := C2_snapshot_write (fun _ => ⟨200, ["oid1"]⟩)
    [[("chefUniqueId", "org_n1"), ("chef_environment", "prod")]] (some [])
    [Event.diffDone "org_n1",
     Event.patch "org_n1" "oid1" [("chefUniqueId", "org_n1"), ("chef_environment", "prod")],
     Event.save [("org_n1", [("chef_environment", "prod")])]]
    [("org_n1", [("chef_environment", "prod")])] rfl
  ⟨rfl, h.1, h.2.1,
   (h.2.2 (by decide) [("chefUniqueId", "org_n1"), ("chef_environment", "prod")]
     (by simp) "org_n1" rfl (by decide)).1⟩

/-- C6: a lookup that returns HTTP 200 with zero object ids is a normal
per-node outcome — the node is skipped for the cycle (no diff, no patch)
but its freshly collected record is still written to the snapshot at cycle
end; whereas a non-200 lookup response aborts the whole run with a
non-zero exit status. -/
theorem C6_notfound_vs_fatal :
    (∀ (env : String → LookupResp) (pickleFile : Option Snapshot)
       (node : Record) (uid : String),
      lookupKey node "chefUniqueId" = some uid →
      (env uid).status = 200 → (env uid).rs = [] →
      sendMetadataToSignalfx env pickleFile node = .ok [.skipNotFound uid]) ∧
    (∀ (env : String → LookupResp) (pickleFile : Option Snapshot) (nodes : List Record)
       (node : Record) (uid : String) (evs : List Event) (snap : Snapshot),
      runCycle env nodes pickleFile = .ok (evs, snap) →
      node ∈ nodes → lookupKey node "chefUniqueId" = some uid →
      (env uid).rs = [] →
      Event.skipNotFound uid ∈ evs ∧
      (∀ oid delta, Event.patch uid oid delta ∉ evs) ∧
      Event.diffDone uid ∉ evs ∧
      ((nodeIds nodes).Nodup →
        lookupKey snap uid = some (eraseKey node "chefUniqueId"))) ∧
    (∀ (env : String → LookupResp) (pickleFile : Option Snapshot)
       (pre post : List Record) (node : Record) (uid : String) (evs0 : List Event),
      syncNodes env pickleFile pre = .ok evs0 →
      lookupKey node "chefUniqueId" = some uid →
      (env uid).status ≠ 200 →
      runCycle env (pre ++ node :: post) pickleFile = .error .httpLookupFailure) ∧
    abortExitCode .httpLookupFailure ≠ 0 := by
  refine ⟨?_, ?_, ?_, by decide⟩
  · intro env p node uid hid hst hrs
    unfold sendMetadataToSignalfx getSignalfxObjectId
    rw [hid]
    dsimp only
    rw [if_neg (by simp [hst])]
    dsimp only
    rw [hrs]
  · intro env p nodes node uid evs snap hrun hmem hid hrs
    obtain ⟨evs0, hsync, hsave, rfl⟩ := runCycle_ok_inv hrun
    obtain ⟨evn, hsend, hsub⟩ := syncNodes_node_events hsync hmem
    obtain ⟨uid2, hid2, hst, hcase⟩ := send_ok_inv hsend
    have huideq : uid2 = uid := by
      rw [hid] at hid2
      exact (Option.some.inj hid2).symm
    subst huideq
    have hevn : evn = [.skipNotFound uid2] := by
      rcases hcase with ⟨_, h⟩ | ⟨oid, rest, delta, hrs2, _, _⟩
      · exact h
      · rw [hrs] at hrs2
        exact absurd hrs2 (by simp)
    refine ⟨?_, ?_, ?_, ?_⟩
    · refine List.mem_append.mpr (Or.inl (hsub _ ?_))
      rw [hevn]
      simp
    · intro oid delta hpat
      rcases List.mem_append.mp hpat with hp | hp
      · obtain ⟨n2, hn2, evn2, hsend2, hin2⟩ := syncNodes_mem_source hsync hp
        obtain ⟨uid3, hid3, hst3, hcase3⟩ := send_ok_inv hsend2
        have huid3 : uid3 = uid2 := by
          have hev := send_event_uid hsend2 hid3 _ hin2
          simp [eventUid] at hev
          exact hev.symm
        subst huid3
        rcases hcase3 with ⟨_, hshape⟩ | ⟨oid2, rest2, delta2, hrs2, _, _⟩
        · rw [hshape] at hin2
          simp at hin2
        · rw [hrs] at hrs2
          exact absurd hrs2 (by simp)
      · simp at hp
    · intro hdiff
      rcases List.mem_append.mp hdiff with hp | hp
      · obtain ⟨n2, hn2, evn2, hsend2, hin2⟩ := syncNodes_mem_source hsync hp
        obtain ⟨uid3, hid3, hst3, hcase3⟩ := send_ok_inv hsend2
        have huid3 : uid3 = uid2 := by
          have hev := send_event_uid hsend2 hid3 _ hin2
          simp [eventUid] at hev
          exact hev.symm
        subst huid3
        rcases hcase3 with ⟨_, hshape⟩ | ⟨oid2, rest2, delta2, hrs2, _, _⟩
        · rw [hshape] at hin2
          simp at hin2
        · rw [hrs] at hrs2
          exact absurd hrs2 (by simp)
      · simp at hp
    · intro hids
      exact saveFold_lookup_mem uid2 snap node nodes [] hids hmem hid hsave
  · intro env p pre post node uid evs0 hpre hid hst
    have hsend : sendMetadataToSignalfx env p node = .error .httpLookupFailure := by
      unfold sendMetadataToSignalfx getSignalfxObjectId
      rw [hid]
      dsimp only
      rw [if_pos hst]
    have hsingle : syncNodes env p (node :: post) = .error .httpLookupFailure := by
      unfold syncNodes
      rw [hsend]
    have hsync : syncNodes env p (pre ++ node :: post) = .error .httpLookupFailure := by
      rw [syncNodes_append_ok (node :: post) hpre, hsingle]
    unfold runCycle
    rw [hsync]

/-- C6 witness: the zero-results outcome and the fatal non-200 outcome at
concrete inputs. -/
theorem C6_witness :
    sendMetadataToSignalfx (fun _ => ⟨200, []⟩) (some [])
        [("chefUniqueId", "org_n1"), ("chef_environment", "prod")]
      = .ok [.skipNotFound "org_n1"] ∧
    Event.skipNotFound "org_n1" ∈
      [Event.skipNotFound "org_n1",
       Event.save [("org_n1", [("chef_environment", "prod")])]] ∧
    lookupKey [("org_n1", [("chef_environment", "prod")])] "org_n1"
      = some (eraseKey [("chefUniqueId", "org_n1"), ("chef_environment", "prod")]
          "chefUniqueId") ∧
    runCycle (fun _ => ⟨500, []⟩) [[("chefUniqueId", "org_n1")]] (some [])
      = .error .httpLookupFailure ∧
    abortExitCode .httpLookupFailure ≠ 0 :=
  have h2 := C6_notfound_vs_fatal.2.1 (fun _ => ⟨200, []⟩) (some [])
    [[("chefUniqueId", "org_n1"), ("chef_environment", "prod")]]
    [("chefUniqueId", "org_n1"), ("chef_environment", "prod")] "org_n1"
    [Event.skipNotFound "org_n1",
     Event.save [("org_n1", [("chef_environment", "prod")])]]
    [("org_n1", [("chef_environment", "prod")])] rfl (by simp) rfl rfl
  ⟨C6_notfound_vs_fatal.1 (fun _ => ⟨200, []⟩) (some [])
     [("chefUniqueId", "org_n1"), ("chef_environment", "prod")] "org_n1" rfl rfl rfl,
   h2.1,
   h2.2.2.2 (by decide),
   C6_notfound_vs_fatal.2.2.1 (fun _ => ⟨500, []⟩) (some []) [] []
     [("chefUniqueId", "org_n1")] "org_n1" [] rfl rfl (by decide),
   C6_notfound_vs_fatal.2.2.2⟩

/-- C5: after a completed cycle, diffing any of the same freshly collected
records against the snapshot that cycle wrote yields the empty delta, so a
second cycle with no upstream changes completes with the same snapshot and
issues no patch request. -/
theorem C5_idempotent_cycles (env : String → LookupResp) (nodes : List Record)
    (p0 : Option Snapshot) (ev1 : List Event) (snap1 : Snapshot)
    (hids : (nodeIds nodes).Nodup)
    (hkeys : ∀ n ∈ nodes, keysNodup n)
    (hhas : ∀ n ∈ nodes, hasKey n "chefUniqueId" = true)
    (h1 : runCycle env nodes p0 = .ok (ev1, snap1)) :
    (∀ n ∈ nodes, checkForUpdatesWithFile n (some snap1) = .ok []) ∧
    ∃ ev2, runCycle env nodes (some snap1) = .ok (ev2, snap1) ∧
      ∀ uid oid delta, Event.patch uid oid delta ∉ ev2 := by
  obtain ⟨ev0, hsync1, hsave1, rfl⟩ := runCycle_ok_inv h1
  have hdiff : ∀ n ∈ nodes, checkForUpdatesWithFile n (some snap1) = .ok [] := by
    intro n hn
    obtain ⟨uid, huid⟩ := Option.isSome_iff_exists.mp (hhas n hn)
    show checkForUpdatesInMetadata n snap1 = .ok []
    exact checkForUpdates_self_empty huid (hkeys n hn)
      (saveFold_lookup_mem uid snap1 n nodes [] hids hn huid hsave1)
  refine ⟨hdiff, ?_⟩
  have hsendok : ∀ n ∈ nodes,
      ∃ evn, sendMetadataToSignalfx env (some snap1) n = .ok evn ∧
        ∀ uid oid delta, Event.patch uid oid delta ∉ evn := by
    intro n hn
    obtain ⟨uid, huid⟩ := Option.isSome_iff_exists.mp (hhas n hn)
    obtain ⟨evn1, hsend1, _⟩ := syncNodes_node_events hsync1 hn
    obtain ⟨uid2, hid2, hst, _⟩ := send_ok_inv hsend1
    have huideq : uid2 = uid := by
      rw [huid] at hid2
      exact (Option.some.inj hid2).symm
    subst huideq
    cases hrs : (env uid2).rs with
    | nil =>
      refine ⟨[.skipNotFound uid2], ?_, ?_⟩
      · unfold sendMetadataToSignalfx getSignalfxObjectId
        rw [huid]
        dsimp only
        rw [if_neg (by simp [hst])]
        dsimp only
        rw [hrs]
      · intro uid oid delta hmem
        simp at hmem
    | cons oid rest =>
      refine ⟨[.diffDone uid2, .noNewMetadata uid2], ?_, ?_⟩
      · unfold sendMetadataToSignalfx getSignalfxObjectId
        rw [huid]
        dsimp only
        rw [if_neg (by simp [hst])]
        dsimp only
        rw [hrs]
        dsimp only
        rw [hdiff n hn]
        rfl
      · intro uid oid delta hmem
        simp at hmem
  obtain ⟨ev2, hsync2⟩ := syncNodes_all_ok
    (fun n hn => ⟨(hsendok n hn).choose, (hsendok n hn).choose_spec.1⟩)
  refine ⟨ev2 ++ [.save snap1], runCycle_ok_build hsync2 hsave1, ?_⟩
  intro uid oid delta hmem
  rcases List.mem_append.mp hmem with hp | hp
  · obtain ⟨n, hn, evn, hsendn, hin⟩ := syncNodes_mem_source hsync2 hp
    obtain ⟨evn', hsendn', hnp⟩ := hsendok n hn
    rw [hsendn'] at hsendn
    have heq : evn' = evn := Except.ok.inj hsendn
    subst heq
    exact hnp uid oid delta hin
  · simp at hp

/-- C5 witness: two concrete consecutive cycles with the same node. -/
theorem C5_witness :
    runCycle (fun _ => ⟨200, ["oid1"]⟩)
        [[("chefUniqueId", "org_n1"), ("chef_environment", "prod")]] (some [])
      = .ok ([Event.diffDone "org_n1",
              Event.patch "org_n1" "oid1"
                [("chefUniqueId", "org_n1"), ("chef_environment", "prod")],
              Event.save [("org_n1", [("chef_environment", "prod")])]],
             [("org_n1", [("chef_environment", "prod")])]) ∧
    checkForUpdatesWithFile [("chefUniqueId", "org_n1"), ("chef_environment", "prod")]
        (some [("org_n1", [("chef_environment", "prod")])]) = .ok [] ∧
    ∃ ev2, runCycle (fun _ => ⟨200, ["oid1"]⟩)
        [[("chefUniqueId", "org_n1"), ("chef_environment", "prod")]]
        (some [("org_n1", [("chef_environment", "prod")])])
      = .ok (ev2, [("org_n1", [("chef_environment", "prod")])]) ∧
      ∀ uid oid delta, Event.patch uid oid delta ∉ ev2 :=
  have h := C5_idempotent_cycles (fun _ => ⟨200, ["oid1"]⟩)
    [[("chefUniqueId", "org_n1"), ("chef_environment", "prod")]] (some [])
    [Event.diffDone "org_n1",
     Event.patch "org_n1" "oid1" [("chefUniqueId", "org_n1"), ("chef_environment", "prod")],
     Event.save [("org_n1", [("chef_environment", "prod")])]]
    [("org_n1", [("chef_environment", "prod")])]
    (by decide) (by decide) (by decide) rfl
  ⟨rfl, h.1 [("chefUniqueId", "org_n1"), ("chef_environment", "prod")] (by simp), h.2⟩

/-- C7 witness: the filter characterization on a concrete config file with
a comment, a blank line, two valid lines and one invalid line. -/
theorem C7_witness :
    readConfig ["# comment\n", "\n", "languages.python.version\n", "bad name\n", "roles"]
      = (["# comment\n", "\n", "languages.python.version\n", "bad name\n", "roles"].filter
          claimKeepsLine).map rstripNl ∧
    readConfig ["# comment\n", "\n", "languages.python.version\n", "bad name\n", "roles"]
      = ["languages.python.version", "roles"] :=
  ⟨C7_readConfig_filters ["# comment\n", "\n", "languages.python.version\n", "bad name\n", "roles"],
   rfl⟩

/-- C9 witness: the amended equivalence on concrete names. -/
theorem C9_witness :
    checkPropertyName "language_python3-version" = true ∧
    checkPropertyName "language.python" = false ∧
    checkPropertyName "9chef_environment" = false :=
  ⟨(C9_pattern_check "language_python3-version").mpr (Or.inl rfl), rfl, rfl⟩
